import Mathlib

/-!
Shallow embedding of the drone-route repository's routing core
(`src/simple_route_utils.py`, `src/advanced_route_utils.py`, and the
path-finding phase of `scripts/generate_advanced_route.py`).

Conventions of the embedding:
* A geographic position is a pair `(lon, lat) : ℚ × ℚ` (the scripts build
  every `geometry` point as `Point(longitude, latitude)` from the same two
  dataframe columns, so the `geometry` of a row and its lat/lon columns are
  a single value here).
* A two-point `LineString` is a pair of positions (`Seg`).  Every
  `LineString` the repository ever constructs has exactly two points.
* The external geometry/geodesy libraries (shapely, geopy) are abstracted:
  a `ZoneColl` packages the two aggregated predicates the code calls on a
  GeoDataFrame (`gdf.contains(p).any()` and `gdf.intersects(line).any()`),
  and a `GeoCtx` packages `geodesic(..).km` and `LineString.length`.
  `line.interpolate(t, normalized=True)` on a straight two-point line is
  affine interpolation and is embedded concretely.
* `networkx.Graph` is embedded as an explicit node list (id with attribute
  record) plus an undirected edge list; `add_edge` creates missing
  endpoints implicitly (with no attributes) and overwrites the weight of an
  existing edge, as networkx does.
* Python floats are modelled by exact rationals.
-/

/-- A position, ordered `(lon, lat)` as in the graphs' `pos` attribute. -/
abbrev Q2 : Type := ℚ × ℚ

/-- A straight two-point `LineString`. -/
abbrev Seg : Type := Q2 × Q2

/-- The reversed `LineString` (same two points, opposite orientation). -/
def Seg.rev (s : Seg) : Seg := (s.2, s.1)

/-- A GeoDataFrame of regions, abstracted to the two aggregated predicates
the routing code calls on it: `gdf.contains(point).any()` and
`gdf.intersects(line).any()`. -/
structure ZoneColl where
  containsB : Q2 → Bool
  intersectsB : Seg → Bool

/-- The external geometric primitives used by the routing code:
`geodesic((lat1, lon1), (lat2, lon2)).km` (as a function of the two
`(lon, lat)` positions) and shapely's `LineString.length`. -/
structure GeoCtx where
  dist : Q2 → Q2 → ℚ
  slen : Seg → ℚ

/-- Attribute record of a graph node: networkx node attributes `pos` and
`name`, either of which may be absent. -/
structure NodeData where
  pos : Option Q2
  name : Option String
deriving DecidableEq, Repr

/-- A `networkx.Graph`: nodes (id with attributes) and undirected weighted
edges.  An edge is stored once, in the insertion orientation. -/
structure Graph where
  nodes : List (Nat × NodeData)
  edges : List (Nat × Nat × ℚ)
deriving DecidableEq, Repr

/-- The empty graph (`nx.Graph()`). -/
def Graph.empty : Graph := ⟨[], []⟩

/-- Whether a stored edge joins the unordered pair `{u, v}`. -/
def edgeMatches (u v : Nat) (e : Nat × Nat × ℚ) : Bool :=
  (e.1 == u && e.2.1 == v) || (e.1 == v && e.2.1 == u)

/-- Node membership test (`n in G.nodes`). -/
def Graph.hasNode (G : Graph) (n : Nat) : Bool :=
  G.nodes.any (fun nd => nd.1 == n)

/-- The list of node ids of a graph, in insertion order. -/
def Graph.nodeIds (G : Graph) : List Nat := G.nodes.map (fun nd => nd.1)

/-- Weight of the undirected edge `{u, v}`, when present. -/
def Graph.edgeWeight (G : Graph) (u v : Nat) : Option ℚ :=
  (G.edges.find? (edgeMatches u v)).map (fun e => e.2.2)

/-- Ensure a node id exists, creating it with no attributes if missing —
the implicit node creation networkx performs inside `add_edge`. -/
def Graph.ensureNode (G : Graph) (n : Nat) : Graph :=
  if G.hasNode n then G else { G with nodes := G.nodes ++ [(n, ⟨none, none⟩)] }

/-- `G.add_node(n, pos=p)`: create the node or update its `pos` attribute,
leaving any existing `name` attribute in place. -/
def Graph.addNodePos (G : Graph) (n : Nat) (p : Q2) : Graph :=
  if G.hasNode n then
    { G with nodes := G.nodes.map (fun nd =>
        if nd.1 == n then (nd.1, { nd.2 with pos := some p }) else nd) }
  else
    { G with nodes := G.nodes ++ [(n, ⟨some p, none⟩)] }

/-- `G.add_node(n, pos=p, name=nm)`: create the node or set both
attributes. -/
def Graph.addNodePosName (G : Graph) (n : Nat) (p : Q2) (nm : String) : Graph :=
  if G.hasNode n then
    { G with nodes := G.nodes.map (fun nd =>
        if nd.1 == n then (nd.1, ⟨some p, some nm⟩) else nd) }
  else
    { G with nodes := G.nodes ++ [(n, ⟨some p, some nm⟩)] }

/-- `G.add_edge(u, v, weight=w)`: implicitly create missing endpoints, then
overwrite the weight of an existing `{u, v}` edge or append a new one. -/
def Graph.addEdge (G : Graph) (u v : Nat) (w : ℚ) : Graph :=
  let G1 := (G.ensureNode u).ensureNode v
  if G1.edges.any (edgeMatches u v) then
    { G1 with edges := G1.edges.map (fun e =>
        if edgeMatches u v e then (e.1, e.2.1, w) else e) }
  else
    { G1 with edges := G1.edges ++ [(u, v, w)] }

/-- `nx.get_node_attributes(G, "pos")`: the dictionary of nodes having a
`pos` attribute. -/
def Graph.posDict (G : Graph) : List (Nat × Q2) :=
  G.nodes.filterMap (fun nd => nd.2.pos.map (fun p => (nd.1, p)))

/-- Python dictionary assignment `m[k] = v`. -/
def dictSet (m : List (Nat × Q2)) (k : Nat) (v : Q2) : List (Nat × Q2) :=
  if m.any (fun e => e.1 == k) then
    m.map (fun e => if e.1 == k then (e.1, v) else e)
  else m ++ [(k, v)]

/-- `nx.set_node_attributes(G, m, "pos")`: set the `pos` attribute of every
graph node that has an entry in the dictionary. -/
def Graph.setPosAll (G : Graph) (m : List (Nat × Q2)) : Graph :=
  { G with nodes := G.nodes.map (fun nd =>
      match m.lookup nd.1 with
      | some p => (nd.1, { nd.2 with pos := some p })
      | none => nd) }

/-- `G.remove_nodes_from(l)`: drop the listed nodes and all incident
edges. -/
def Graph.removeNodes (G : Graph) (l : List Nat) : Graph :=
  { nodes := G.nodes.filter (fun nd => !(l.contains nd.1)),
    edges := G.edges.filter (fun e => !(l.contains e.1) && !(l.contains e.2.1)) }

/-- Largest node id (0 on the empty graph); `max(G.nodes)`. -/
def Graph.maxNode (G : Graph) : Nat :=
  G.nodes.foldl (fun a nd => max a nd.1) 0

/-- `max(G.nodes) + 1 if len(G.nodes) > 0 else 0`: the id given to an
inserted ad-hoc node. -/
def newNodeIdx (G : Graph) : Nat :=
  if G.nodes.isEmpty then 0 else G.maxNode + 1

/-- Python `int()` applied to a rational: truncation toward zero. -/
def intTrunc (q : ℚ) : ℤ := if q < 0 then ⌈q⌉ else ⌊q⌋

/-- `num_segments = int(line.length / segment_length)` in `segment_edge`
(`advanced_route_utils.py`, line 39). -/
def numSegments (ctx : GeoCtx) (s : Seg) (segLen : ℚ) : ℕ :=
  (intTrunc (ctx.slen s / segLen)).toNat

/-- `line.interpolate(t, normalized=True)` on a straight two-point line:
affine interpolation between the endpoints. -/
def interp (s : Seg) (t : ℚ) : Q2 :=
  (s.1.1 + t * (s.2.1 - s.1.1), s.1.2 + t * (s.2.2 - s.1.2))

/-- The `i`-th sub-segment produced by `segment_edge` when the line is cut
into `N` pieces: from `interpolate(i/N)` to `interpolate((i+1)/N)`. -/
def subseg (s : Seg) (N i : ℕ) : Seg :=
  (interp s ((i : ℚ) / (N : ℚ)), interp s (((i : ℚ) + 1) / (N : ℚ)))

/-- `segment_edge(line, segment_length)` from `advanced_route_utils.py`
(lines 27-48): cut the line into `int(length / segment_length)` equal
sub-segments at evenly spaced normalized interpolation parameters. -/
def segment_edge (ctx : GeoCtx) (s : Seg) (segLen : ℚ) : List Seg :=
  (List.range (numSegments ctx s segLen)).map (subseg s (numSegments ctx s segLen))

/-- `calculate_segment_weight` from `advanced_route_utils.py` (lines
51-79): base weight is the segment's length; multiply by 1.5 on road
intersection, by 1 on building intersection, by 0.8 on open-space
intersection and by 3 on avoidance-zone intersection, in that order. -/
def calculate_segment_weight (ctx : GeoCtx)
    (roads buildings openSpace avoid : ZoneColl) (s : Seg) : ℚ :=
  let w0 := ctx.slen s
  let w1 := if roads.intersectsB s then w0 * (1.5 : ℚ) else w0
  let w2 := if buildings.intersectsB s then w1 * 1 else w1
  let w3 := if openSpace.intersectsB s then w2 * (0.8 : ℚ) else w2
  if avoid.intersectsB s then w3 * 3 else w3

/-- `calculate_edge_weight` from `advanced_route_utils.py` (lines 82-105):
sum of the weights of the sub-segments produced by `segment_edge` with the
default segment length 1. -/
def calculate_edge_weight (ctx : GeoCtx)
    (roads buildings openSpace avoid : ZoneColl) (s : Seg) : ℚ :=
  ((segment_edge ctx s 1).map
    (calculate_segment_weight ctx roads buildings openSpace avoid)).sum

/-- Per-pair pricing of the simple `create_and_save_graph`
(`simple_route_utils.py`, lines 53-70): `none` when the connection is out
of range or crosses a no-fly zone, otherwise the geodesic distance,
multiplied by 10 when the line crosses an avoidance zone. -/
def builderEdgeWeight (ctx : GeoCtx) (nofly avoid : ZoneColl) (rng : ℚ)
    (p q : Q2) : Option ℚ :=
  let d := ctx.dist p q
  if d ≤ rng then
    if (nofly.intersectsB (p, q)) then none
    else some (if avoid.intersectsB (p, q) then d * 10 else d)
  else none

/-- Per-facility pricing of the simple `add_node_to_graph`
(`simple_route_utils.py`, lines 122-136): `none` when out of range or
crossing a no-fly zone, otherwise the geodesic distance, multiplied by 3
when the line crosses an avoidance zone. -/
def inserterEdgeWeight (ctx : GeoCtx) (nofly avoid : ZoneColl) (rng : ℚ)
    (p q : Q2) : Option ℚ :=
  let d := ctx.dist p q
  if d ≤ rng then
    if (nofly.intersectsB (p, q)) then none
    else some (if avoid.intersectsB (p, q) then d * 3 else d)
  else none

/-- Per-pair pricing of the advanced `create_and_save_graph` and
`add_node_to_graph` (`advanced_route_utils.py`, lines 145-162 and
219-231): `none` when out of range or crossing a no-fly zone, otherwise
the segmented land-use weight of the straight line. -/
def advEdgeWeight (ctx : GeoCtx)
    (roads buildings openSpace nofly avoid : ZoneColl) (rng : ℚ)
    (p q : Q2) : Option ℚ :=
  let d := ctx.dist p q
  if d ≤ rng then
    if (nofly.intersectsB (p, q)) then none
    else some (calculate_edge_weight ctx roads buildings openSpace avoid (p, q))
  else none

/-- Generic shape of both `create_and_save_graph` loops, with the per-pair
pricing abstracted: for every facility row not contained in a no-fly zone,
add it as a node and price its connection to every other facility row. -/
def buildGraph (F2 : Q2 → Q2 → Option ℚ) (fac : List (Nat × Q2))
    (nofly : ZoneColl) : Graph :=
  fac.foldl (fun G r1 =>
    if nofly.containsB r1.2 then G
    else
      fac.foldl (fun H r2 =>
        if r1.1 == r2.1 then H
        else
          match F2 r1.2 r2.2 with
          | some w => H.addEdge r1.1 r2.1 w
          | none => H) (G.addNodePos r1.1 r1.2)) Graph.empty

/-- `create_and_save_graph` from `simple_route_utils.py` (lines 44-70), as
the graph value it builds and pickles. -/
def simpleCreateGraph (ctx : GeoCtx) (fac : List (Nat × Q2))
    (nofly avoid : ZoneColl) (rng : ℚ) : Graph :=
  fac.foldl (fun G r1 =>
    if nofly.containsB r1.2 then G
    else
      fac.foldl (fun H r2 =>
        if r1.1 == r2.1 then H
        else
          match builderEdgeWeight ctx nofly avoid rng r1.2 r2.2 with
          | some w => H.addEdge r1.1 r2.1 w
          | none => H) (G.addNodePos r1.1 r1.2)) Graph.empty

/-- `create_and_save_graph` from `advanced_route_utils.py` (lines 137-163),
as the graph value it builds and pickles. -/
def advCreateGraph (ctx : GeoCtx)
    (fac : List (Nat × Q2)) (roads buildings openSpace nofly avoid : ZoneColl)
    (rng : ℚ) : Graph :=
  fac.foldl (fun G r1 =>
    if nofly.containsB r1.2 then G
    else
      fac.foldl (fun H r2 =>
        if r1.1 == r2.1 then H
        else
          match advEdgeWeight ctx roads buildings openSpace nofly avoid rng r1.2 r2.2 with
          | some w => H.addEdge r1.1 r2.1 w
          | none => H) (G.addNodePos r1.1 r1.2)) Graph.empty

/-- Generic shape of the edge loop of both `add_node_to_graph` variants,
with the per-facility pricing abstracted. -/
def insertLoop (F1 : Q2 → Option ℚ) (idx : Nat) (fac : List (Nat × Q2))
    (G : Graph) : Graph :=
  fac.foldl (fun H r =>
    match F1 r.2 with
    | some w => H.addEdge idx r.1 w
    | none => H) G

/-- `add_node_to_graph` from `simple_route_utils.py` (lines 78-140):
returns the outcome (`None` or the new node id) together with the mutated
graph. -/
def simpleAddNode (ctx : GeoCtx) (G : Graph) (loc : Q2) (nm : String)
    (fac : List (Nat × Q2)) (nofly avoid : ZoneColl) (rng : ℚ) :
    Option Nat × Graph :=
  if nofly.containsB loc then (none, G)
  else
    let idx := newNodeIdx G
    let G1 := G.addNodePosName idx loc nm
    let G2 := G1.setPosAll (dictSet G1.posDict idx loc)
    let G3 := fac.foldl (fun H r =>
      match inserterEdgeWeight ctx nofly avoid rng loc r.2 with
      | some w => H.addEdge idx r.1 w
      | none => H) G2
    (some idx, G3)

/-- `add_node_to_graph` from `advanced_route_utils.py` (lines 170-234):
returns the outcome (`None` or the new node id) together with the mutated
graph. -/
def advAddNode (ctx : GeoCtx) (G : Graph) (loc : Q2) (nm : String)
    (fac : List (Nat × Q2)) (roads buildings openSpace nofly avoid : ZoneColl)
    (rng : ℚ) : Option Nat × Graph :=
  if nofly.containsB loc then (none, G)
  else
    let idx := newNodeIdx G
    let G1 := G.addNodePosName idx loc nm
    let G2 := G1.setPosAll (dictSet G1.posDict idx loc)
    let G3 := fac.foldl (fun H r =>
      match advEdgeWeight ctx roads buildings openSpace nofly avoid rng loc r.2 with
      | some w => H.addEdge idx r.1 w
      | none => H) G2
    (some idx, G3)

/-- Result of the path-finding phase of `scripts/generate_advanced_route.py`
`main` (lines 157-175): the graph as it is when `nx.dijkstra_path` is
invoked, the path outcome, the detected nodes lacking a `pos` attribute,
and the graph from which the route is saved to CSV. -/
structure PathPhase where
  dijkstraInput : Graph
  path : Option (List Nat)
  missingPos : List Nat
  savedGraph : Graph
deriving DecidableEq, Repr

/-- The path-finding phase of `generate_advanced_route.py` `main` (lines
157-175), with `nx.dijkstra_path` abstracted as `sp` (a `none` result
models the `NetworkXNoPath` exception, which skips the rest of the
`try` block): run the shortest-path lookup on the graph as given, then
detect nodes without a `pos` attribute, remove them, and save the route
from the resulting graph. -/
def runPathPhase (sp : Graph → Nat → Nat → Option (List Nat)) (G : Graph)
    (s t : Nat) : PathPhase :=
  match sp G s t with
  | none => ⟨G, none, [], G⟩
  | some p =>
    let pos := G.posDict
    let missing := (G.nodes.filter (fun nd => ((pos.lookup nd.1)).isNone)).map
      (fun nd => nd.1)
    ⟨G, some p, missing, G.removeNodes missing⟩

/-- Inner step of the builders' pair loop. -/
def buildInnerStep (F2 : Q2 → Q2 → Option ℚ) (r1 : Nat × Q2) (H : Graph)
    (r2 : Nat × Q2) : Graph :=
  if r1.1 == r2.1 then H
  else
    match F2 r1.2 r2.2 with
    | some w => H.addEdge r1.1 r2.1 w
    | none => H

/-- Outer step of the builders' facility loop. -/
def buildOuterStep (F2 : Q2 → Q2 → Option ℚ) (fac : List (Nat × Q2))
    (nofly : ZoneColl) (G : Graph) (r1 : Nat × Q2) : Graph :=
  if nofly.containsB r1.2 then G
  else fac.foldl (buildInnerStep F2 r1) (G.addNodePos r1.1 r1.2)

/-- Zone collection that contains no point and intersects no line. -/
def zoneNone : ZoneColl := ⟨fun _ => false, fun _ => false⟩

/-- Zone collection that contains no point but intersects every line. -/
def zoneInterAll : ZoneColl := ⟨fun _ => false, fun _ => true⟩

/-- Zone collection that contains every point and intersects every line. -/
def zoneAll : ZoneColl := ⟨fun _ => true, fun _ => true⟩

/-- Geometric context with unit geodesic distance and zero line length. -/
def ctxUnit : GeoCtx := ⟨fun _ _ => 1, fun _ => 0⟩

/-- Geometric context with unit geodesic distance and line length 2. -/
def ctxLen2 : GeoCtx := ⟨fun _ _ => 1, fun _ => 2⟩

/-- Geometric context with unit geodesic distance and line length 1/2. -/
def ctxHalf : GeoCtx := ⟨fun _ _ => 1, fun _ => 1/2⟩

/-- Two facilities on distinct indices 0 and 1. -/
def fac2 : List (Nat × Q2) := [(0, (0, 0)), (1, (1, 0))]

/-- One facility whose index 0 is a node of `g0`. -/
def facW : List (Nat × Q2) := [(0, (1, 0))]

/-- One facility whose index 7 is not a node of `g0`. -/
def facFar : List (Nat × Q2) := [(7, (1, 0))]

/-- One facility whose index 1 collides with the id the first inserted
ad-hoc node receives on `g0`. -/
def facC8 : List (Nat × Q2) := [(1, (5, 5))]

/-- A one-node graph with node 0. -/
def g0 : Graph := ⟨[(0, ⟨some (0, 0), none⟩)], []⟩

/-- A graph whose node 2 is referenced by an edge but lacks the `pos`
attribute. -/
def gBad : Graph := ⟨[(1, ⟨some (0, 0), none⟩), (2, ⟨none, none⟩)], [(1, 2, 5)]⟩

/-- A concrete stand-in for the shortest-path oracle. -/
def spConst : Graph → Nat → Nat → Option (List Nat) := fun _ s t => some [s, t]


/-! Helper lemmas about lists, `find?` and the graph operations. -/

/-- A `foldl` preserves any invariant preserved by each step over list
members. -/
theorem foldl_preserves {α β : Type} (P : β → Prop) :
    ∀ (l : List α) (f : β → α → β) (b : β), P b →
      (∀ x a, a ∈ l → P x → P (f x a)) → P (l.foldl f b) := by
  intro l
  induction l with
  | nil => intro f b hb _; exact hb
  | cons a t ih =>
    intro f b hb hf
    exact ih f (f b a) (hf b a (List.mem_cons_self a t) hb)
      (fun x y hy hx => hf x y (List.mem_cons_of_mem a hy) hx)

/-- `find?` only depends on the pointwise behaviour of the predicate. -/
theorem find?_congr {α : Type} {p q : α → Bool} (h : ∀ a, p a = q a) :
    ∀ l : List α, l.find? p = l.find? q := by
  intro l
  induction l with
  | nil => rfl
  | cons a t ih =>
    by_cases ha : p a = true
    · rw [List.find?_cons_of_pos _ ha, List.find?_cons_of_pos _ ((h a).symm.trans ha)]
    · rw [List.find?_cons_of_neg _ ha,
        List.find?_cons_of_neg _ (fun hq => ha ((h a).trans hq)), ih]

/-- Mapping a function that neither changes the predicate's value nor moves
any satisfying element changes nothing for `find?`. -/
theorem find?_map_stable {α : Type} {p : α → Bool} {f : α → α}
    (hp : ∀ a, p (f a) = p a) (hfix : ∀ a, p a = true → f a = a) :
    ∀ l : List α, (l.map f).find? p = l.find? p := by
  intro l
  induction l with
  | nil => rfl
  | cons a t ih =>
    by_cases ha : p a = true
    · rw [List.map_cons, List.find?_cons_of_pos _ ((hp a).trans ha),
        List.find?_cons_of_pos _ ha, hfix a ha]
    · rw [List.map_cons, List.find?_cons_of_neg _ (fun h => ha ((hp a).symm.trans h)),
        List.find?_cons_of_neg _ ha, ih]

/-- Mapping a function that preserves the predicate maps the `find?`
result. -/
theorem find?_map_pres {α : Type} {p : α → Bool} {f : α → α}
    (hp : ∀ a, p (f a) = p a) :
    ∀ l : List α, (l.map f).find? p = (l.find? p).map f := by
  intro l
  induction l with
  | nil => rfl
  | cons a t ih =>
    by_cases ha : p a = true
    · rw [List.map_cons, List.find?_cons_of_pos _ ((hp a).trans ha),
        List.find?_cons_of_pos _ ha, Option.map_some']
    · rw [List.map_cons, List.find?_cons_of_neg _ (fun h => ha ((hp a).symm.trans h)),
        List.find?_cons_of_neg _ ha, ih]

/-- Characterisation of `edgeMatches`. -/
theorem edgeMatches_iff {u v : Nat} {e : Nat × Nat × ℚ} :
    edgeMatches u v e = true ↔ (e.1 = u ∧ e.2.1 = v) ∨ (e.1 = v ∧ e.2.1 = u) := by
  simp [edgeMatches]

/-- `edgeMatches` is symmetric in the unordered pair. -/
theorem edgeMatches_comm (u v : Nat) (e : Nat × Nat × ℚ) :
    edgeMatches u v e = edgeMatches v u e := by
  simp [edgeMatches, Bool.or_comm]

/-- `edgeMatches` only inspects the two endpoint components. -/
theorem edgeMatches_comps {u v : Nat} {e e' : Nat × Nat × ℚ}
    (h1 : e'.1 = e.1) (h2 : e'.2.1 = e.2.1) :
    edgeMatches u v e' = edgeMatches u v e := by
  simp [edgeMatches, h1, h2]

/-- Two unordered pairs that are distinct cannot both be matched by one
stored edge. -/
theorem edgeMatches_disjoint {u v a b : Nat} {e : Nat × Nat × ℚ}
    (h : ¬((a = u ∧ b = v) ∨ (a = v ∧ b = u)))
    (hm : edgeMatches u v e = true) : edgeMatches a b e = false := by
  rcases edgeMatches_iff.mp hm with ⟨h1, h2⟩ | ⟨h1, h2⟩ <;>
  · rw [← Bool.not_eq_true]
    intro hab
    rcases edgeMatches_iff.mp hab with ⟨g1, g2⟩ | ⟨g1, g2⟩ <;>
      exact h (by omega)

/-- `ensureNode` does not touch edges. -/
theorem edges_ensureNode (G : Graph) (n : Nat) :
    (G.ensureNode n).edges = G.edges := by
  unfold Graph.ensureNode; split <;> rfl

/-- `addNodePos` does not touch edges. -/
theorem edges_addNodePos (G : Graph) (n : Nat) (p : Q2) :
    (G.addNodePos n p).edges = G.edges := by
  unfold Graph.addNodePos; split <;> rfl

/-- `addNodePosName` does not touch edges. -/
theorem edges_addNodePosName (G : Graph) (n : Nat) (p : Q2) (nm : String) :
    (G.addNodePosName n p nm).edges = G.edges := by
  unfold Graph.addNodePosName; split <;> rfl

/-- `setPosAll` does not touch edges. -/
theorem edges_setPosAll (G : Graph) (m : List (Nat × Q2)) :
    (G.setPosAll m).edges = G.edges := rfl

/-- `edgeWeight` only looks at edges. -/
theorem edgeWeight_eq_of_edges {G H : Graph} (h : G.edges = H.edges)
    (u v : Nat) : G.edgeWeight u v = H.edgeWeight u v := by
  unfold Graph.edgeWeight; rw [h]

/-- `edgeWeight` is symmetric. -/
theorem edgeWeight_comm (G : Graph) (u v : Nat) :
    G.edgeWeight u v = G.edgeWeight v u := by
  unfold Graph.edgeWeight
  rw [find?_congr (edgeMatches_comm u v)]

/-- The edge list of `addEdge`, with the implicit endpoint creation
unfolded away. -/
theorem edges_addEdge (G : Graph) (u v : Nat) (w : ℚ) :
    (G.addEdge u v w).edges =
      if G.edges.any (edgeMatches u v) then
        G.edges.map (fun e => if edgeMatches u v e then (e.1, e.2.1, w) else e)
      else G.edges ++ [(u, v, w)] := by
  have he : ((G.ensureNode u).ensureNode v).edges = G.edges := by
    rw [edges_ensureNode, edges_ensureNode]
  simp only [Graph.addEdge, he]
  split <;> rename_i hc
  · simp [hc]
  · simp [hc]

/-- After `addEdge u v w` the weight of `{u, v}` is `w`. -/
theorem edgeWeight_addEdge_same (G : Graph) (u v : Nat) (w : ℚ) :
    (G.addEdge u v w).edgeWeight u v = some w := by
  unfold Graph.edgeWeight
  rw [edges_addEdge]
  by_cases h : G.edges.any (edgeMatches u v) = true
  · rw [if_pos h]
    have hp : ∀ e : Nat × Nat × ℚ,
        edgeMatches u v (if edgeMatches u v e then (e.1, e.2.1, w) else e) =
          edgeMatches u v e := by
      intro e
      by_cases hm : edgeMatches u v e = true
      · rw [if_pos hm]; exact edgeMatches_comps rfl rfl
      · rw [if_neg hm]
    rw [find?_map_pres hp]
    rcases List.any_eq_true.mp h with ⟨e, he, hme⟩
    have hex : ∃ e', G.edges.find? (edgeMatches u v) = some e' := by
      cases hf : G.edges.find? (edgeMatches u v) with
      | none => exact absurd hme ((List.find?_eq_none.mp hf) e he)
      | some e' => exact ⟨e', rfl⟩
    rcases hex with ⟨e', hf⟩
    have hme' := List.find?_some hf
    simp [hf, hme']
  · rw [if_neg h]
    have hnone : G.edges.find? (edgeMatches u v) = none :=
      List.find?_eq_none.mpr (fun x hx hpx => h (List.any_eq_true.mpr ⟨x, hx, hpx⟩))
    rw [List.find?_append, hnone]
    have hm : edgeMatches u v (u, v, w) = true := by simp [edgeMatches]
    simp [List.find?, hm]

/-- `addEdge u v w` leaves the weight of any other unordered pair
unchanged. -/
theorem edgeWeight_addEdge_other (G : Graph) (u v a b : Nat) (w : ℚ)
    (h : ¬((a = u ∧ b = v) ∨ (a = v ∧ b = u))) :
    (G.addEdge u v w).edgeWeight a b = G.edgeWeight a b := by
  unfold Graph.edgeWeight
  rw [edges_addEdge]
  by_cases hany : G.edges.any (edgeMatches u v) = true
  · rw [if_pos hany]
    have hp : ∀ e : Nat × Nat × ℚ,
        edgeMatches a b (if edgeMatches u v e then (e.1, e.2.1, w) else e) =
          edgeMatches a b e := by
      intro e
      by_cases hm : edgeMatches u v e = true
      · rw [if_pos hm]; exact edgeMatches_comps rfl rfl
      · rw [if_neg hm]
    have hfix : ∀ e : Nat × Nat × ℚ, edgeMatches a b e = true →
        (if edgeMatches u v e then (e.1, e.2.1, w) else e) = e := by
      intro e hab
      by_cases hm : edgeMatches u v e = true
      · exact absurd hab (by simp [edgeMatches_disjoint h hm])
      · rw [if_neg hm]
    rw [find?_map_stable hp hfix]
  · rw [if_neg hany]
    rw [List.find?_append]
    have hm : edgeMatches a b (u, v, w) = false := by
      rw [← Bool.not_eq_true]
      intro hmm
      simp [edgeMatches] at hmm
      exact h (by omega)
    simp [List.find?, hm]

/-- Any edge present after `addEdge` either was present before, is the new
edge, or is a rewritten matching edge with the same endpoints. -/
theorem mem_edges_addEdge {G : Graph} {u v : Nat} {w : ℚ}
    {e : Nat × Nat × ℚ} (he : e ∈ (G.addEdge u v w).edges) :
    e ∈ G.edges ∨ e = (u, v, w) ∨
      (edgeMatches u v e = true ∧ ∃ q, (e.1, e.2.1, q) ∈ G.edges) := by
  rw [edges_addEdge] at he
  by_cases hany : G.edges.any (edgeMatches u v) = true
  · rw [if_pos hany] at he
    rcases List.mem_map.mp he with ⟨e0, he0, hfe⟩
    by_cases hm : edgeMatches u v e0 = true
    · right; right
      rw [if_pos hm] at hfe
      refine ⟨?_, e0.2.2, ?_⟩
      · rw [← hfe]; exact (edgeMatches_comps rfl rfl).trans hm
      · rw [← hfe]; exact he0
    · left; rw [if_neg hm] at hfe; rw [← hfe]; exact he0
  · rw [if_neg hany] at he
    rcases List.mem_append.mp he with h0 | h0
    · exact Or.inl h0
    · right; left; simpa using h0

/-- A pre-existing edge matching no rewritten pair survives `addEdge`
verbatim. -/
theorem mem_edges_addEdge_of_mem {G : Graph} {u v : Nat} {w : ℚ}
    {e : Nat × Nat × ℚ} (he : e ∈ G.edges)
    (hm : edgeMatches u v e = false) : e ∈ (G.addEdge u v w).edges := by
  rw [edges_addEdge]
  by_cases hany : G.edges.any (edgeMatches u v) = true
  · rw [if_pos hany]
    have hfe : (if edgeMatches u v e then (e.1, e.2.1, w) else e) = e := by
      simp [hm]
    exact hfe ▸ List.mem_map_of_mem _ he
  · rw [if_neg hany]
    exact List.mem_append_left _ he

/-- `hasNode` is membership in the id list. -/
theorem hasNode_iff_mem {G : Graph} {n : Nat} :
    G.hasNode n = true ↔ n ∈ G.nodeIds := by
  unfold Graph.hasNode Graph.nodeIds
  rw [List.any_eq_true]
  constructor
  · rintro ⟨nd, hnd, hq⟩
    exact List.mem_map.mpr ⟨nd, hnd, beq_iff_eq.mp hq⟩
  · intro hmem
    rcases List.mem_map.mp hmem with ⟨nd, hnd, hfe⟩
    exact ⟨nd, hnd, beq_iff_eq.mpr hfe⟩

/-- The nodes of `addEdge` are the nodes after the two implicit endpoint
creations. -/
theorem nodes_addEdge (G : Graph) (u v : Nat) (w : ℚ) :
    (G.addEdge u v w).nodes = ((G.ensureNode u).ensureNode v).nodes := by
  simp only [Graph.addEdge]
  split <;> rfl

/-- `ensureNode` on a present node is the identity. -/
theorem ensureNode_of_hasNode {G : Graph} {n : Nat} (h : G.hasNode n = true) :
    G.ensureNode n = G := by
  unfold Graph.ensureNode; rw [if_pos h]

/-- `addEdge` between two present nodes leaves the node list unchanged. -/
theorem nodes_addEdge_of_present {G : Graph} {u v : Nat} {w : ℚ}
    (hu : G.hasNode u = true) (hv : G.hasNode v = true) :
    (G.addEdge u v w).nodes = G.nodes := by
  rw [nodes_addEdge, ensureNode_of_hasNode hu, ensureNode_of_hasNode hv]

/-- Mapping an id-preserving function over the nodes does not change
membership. -/
theorem any_fst_map {f : Nat × NodeData → Nat × NodeData}
    (hf : ∀ nd, (f nd).1 = nd.1) (n : Nat) :
    ∀ l : List (Nat × NodeData),
      (l.map f).any (fun nd => nd.1 == n) = l.any (fun nd => nd.1 == n) := by
  intro l
  induction l with
  | nil => rfl
  | cons a t ih => simp [List.map_cons, List.any_cons, hf, ih]

/-- Record form of `any_fst_map` for `hasNode`. -/
theorem hasNode_map_fst {G : Graph} {f : Nat × NodeData → Nat × NodeData}
    (hf : ∀ nd, (f nd).1 = nd.1) (n : Nat) :
    ({ G with nodes := G.nodes.map f } : Graph).hasNode n = G.hasNode n := by
  unfold Graph.hasNode
  exact any_fst_map hf n G.nodes

/-- A map rewriting every element to one with the same value is the
identity. -/
theorem map_eq_self_of {α : Type} {f : α → α} :
    ∀ l : List α, (∀ a ∈ l, f a = a) → l.map f = l := by
  intro l
  induction l with
  | nil => intro _; rfl
  | cons a t ih =>
    intro h
    rw [List.map_cons, h a (List.mem_cons_self a t),
      ih (fun x hx => h x (List.mem_cons_of_mem a hx))]

/-- Node membership after `ensureNode`. -/
theorem hasNode_ensureNode {G : Graph} {m n : Nat} :
    (G.ensureNode m).hasNode n = true ↔ G.hasNode n = true ∨ n = m := by
  unfold Graph.ensureNode
  split <;> rename_i h
  · constructor
    · exact Or.inl
    · rintro (h' | rfl)
      · exact h'
      · exact h
  · show ({ G with nodes := G.nodes ++ [(m, ⟨none, none⟩)] } : Graph).hasNode n = true ↔ _
    unfold Graph.hasNode
    simp only [List.any_append, List.any_cons, List.any_nil, Bool.or_false,
      Bool.or_eq_true, beq_iff_eq]
    constructor
    · rintro (h' | h')
      · exact Or.inl h'
      · exact Or.inr h'.symm
    · rintro (h' | rfl)
      · exact Or.inl h'
      · exact Or.inr rfl

/-- Node membership after `addEdge`. -/
theorem hasNode_addEdge {G : Graph} {u v n : Nat} {w : ℚ} :
    (G.addEdge u v w).hasNode n = true ↔
      G.hasNode n = true ∨ n = u ∨ n = v := by
  have : (G.addEdge u v w).hasNode n = ((G.ensureNode u).ensureNode v).hasNode n := by
    unfold Graph.hasNode; rw [nodes_addEdge]
  rw [this, hasNode_ensureNode, hasNode_ensureNode]
  tauto

/-- Node membership after `addNodePos`. -/
theorem hasNode_addNodePos {G : Graph} {m n : Nat} {p : Q2} :
    (G.addNodePos m p).hasNode n = true ↔ G.hasNode n = true ∨ n = m := by
  unfold Graph.addNodePos
  split <;> rename_i h
  · rw [hasNode_map_fst (fun nd => by split <;> rfl)]
    constructor
    · exact Or.inl
    · rintro (h' | rfl)
      · exact h'
      · exact h
  · show ({ G with nodes := G.nodes ++ [(m, ⟨some p, none⟩)] } : Graph).hasNode n = true ↔ _
    unfold Graph.hasNode
    simp only [List.any_append, List.any_cons, List.any_nil, Bool.or_false,
      Bool.or_eq_true, beq_iff_eq]
    constructor
    · rintro (h' | h')
      · exact Or.inl h'
      · exact Or.inr h'.symm
    · rintro (h' | rfl)
      · exact Or.inl h'
      · exact Or.inr rfl

/-- The initial accumulator is a lower bound of a running maximum. -/
theorem le_foldl_max : ∀ (l : List (Nat × NodeData)) (a : Nat),
    a ≤ l.foldl (fun x nd => max x nd.1) a := by
  intro l
  induction l with
  | nil => intro a; exact le_refl a
  | cons h t ih =>
    intro a
    exact le_trans (le_max_left a h.1) (ih (max a h.1))

/-- Every member is bounded by a running maximum. -/
theorem mem_le_foldl_max : ∀ (l : List (Nat × NodeData)) (a : Nat) (nd : Nat × NodeData),
    nd ∈ l → nd.1 ≤ l.foldl (fun x nd => max x nd.1) a := by
  intro l
  induction l with
  | nil => intro a nd h; cases h
  | cons h t ih =>
    intro a nd hmem
    rcases List.mem_cons.mp hmem with rfl | hmem'
    · exact le_trans (le_max_right a nd.1) (le_foldl_max t (max a nd.1))
    · exact ih (max a h.1) nd hmem'

/-- Every node id is at most `maxNode`. -/
theorem le_maxNode {G : Graph} {nd : Nat × NodeData} (h : nd ∈ G.nodes) :
    nd.1 ≤ G.maxNode := mem_le_foldl_max G.nodes 0 nd h

/-- The id chosen for an inserted node is never already a node. -/
theorem hasNode_newNodeIdx (G : Graph) : G.hasNode (newNodeIdx G) = false := by
  unfold newNodeIdx
  split <;> rename_i h
  · have : G.nodes = [] := List.isEmpty_iff.mp h
    simp [Graph.hasNode, this]
  · cases hb : G.hasNode (G.maxNode + 1) with
    | false => rfl
    | true =>
      exfalso
      rcases List.any_eq_true.mp hb with ⟨nd, hnd, hq⟩
      have h1 := le_maxNode hnd
      have h2 : nd.1 = G.maxNode + 1 := by simpa using hq
      omega

/-- `addNodePosName` on a fresh id appends the node. -/
theorem nodes_addNodePosName_fresh {G : Graph} {n : Nat} {p : Q2} {nm : String}
    (h : G.hasNode n = false) :
    (G.addNodePosName n p nm).nodes = G.nodes ++ [(n, ⟨some p, some nm⟩)] := by
  unfold Graph.addNodePosName
  rw [if_neg (by simp [h])]

/-- `setPosAll` is the identity when the dictionary never disagrees with a
node's stored position. -/
theorem setPosAll_eq_self {G : Graph} {m : List (Nat × Q2)}
    (h : ∀ nd ∈ G.nodes, ∀ p, m.lookup nd.1 = some p → nd.2.pos = some p) :
    G.setPosAll m = G := by
  unfold Graph.setPosAll
  have hm : G.nodes.map (fun nd =>
      match m.lookup nd.1 with
      | some p => (nd.1, { nd.2 with pos := some p })
      | none => nd) = G.nodes := by
    apply map_eq_self_of
    intro nd hnd
    cases hl : m.lookup nd.1 with
    | none => simp [hl]
    | some p =>
      have hp := h nd hnd p hl
      simp only [hl]
      have h2 : ({ nd.2 with pos := some p } : NodeData) = nd.2 := by
        rw [← hp]
      rw [h2]
  rw [hm]

/-- Keys of the `pos` dictionary are node ids. -/
theorem lookup_posDict_none : ∀ (l : List (Nat × NodeData)) (k : Nat),
    (k ∉ l.map (fun nd => nd.1)) →
    (l.filterMap (fun nd => nd.2.pos.map (fun p => (nd.1, p)))).lookup k = none := by
  intro l
  induction l with
  | nil => intro k _; rfl
  | cons a t ih =>
    intro k hk
    have hk1 : k ≠ a.1 := fun h => hk (by simp [h])
    have hkt : k ∉ t.map (fun nd => nd.1) := fun h => hk (by simp [h])
    cases hp : a.2.pos with
    | none => simpa [List.filterMap_cons, hp] using ih k hkt
    | some p =>
      simp only [List.filterMap_cons, hp, Option.map_some', List.lookup_cons]
      rw [show (k == a.1) = false by simpa using hk1]
      exact ih k hkt

/-- With unique node ids, looking a node's id up in the `pos` dictionary
returns exactly that node's stored position. -/
theorem lookup_posDict_of_nodup : ∀ (l : List (Nat × NodeData)),
    (l.map (fun nd => nd.1)).Nodup → ∀ nd ∈ l,
    (l.filterMap (fun nd => nd.2.pos.map (fun p => (nd.1, p)))).lookup nd.1 = nd.2.pos := by
  intro l
  induction l with
  | nil => intro _ nd h; cases h
  | cons a t ih =>
    intro hnodup nd hmem
    rw [List.map_cons] at hnodup
    have hna : a.1 ∉ t.map (fun nd => nd.1) := (List.nodup_cons.mp hnodup).1
    have hnt : (t.map (fun nd => nd.1)).Nodup := (List.nodup_cons.mp hnodup).2
    rcases List.mem_cons.mp hmem with rfl | hmem'
    · cases hp : nd.2.pos with
      | none =>
        simp only [List.filterMap_cons, hp, Option.map_none']
        exact lookup_posDict_none t nd.1 hna
      | some p =>
        simp [List.filterMap_cons, hp, List.lookup_cons]
    · have hne : nd.1 ≠ a.1 := by
        intro h
        exact hna (h ▸ List.mem_map_of_mem (fun nd => nd.1) hmem')
      cases hp : a.2.pos with
      | none => simpa [List.filterMap_cons, hp] using ih hnt nd hmem'
      | some p =>
        simp only [List.filterMap_cons, hp, Option.map_some', List.lookup_cons]
        rw [show (nd.1 == a.1) = false by simpa using hne]
        exact ih hnt nd hmem'

/-- With unique keys, the value associated to a key is unique. -/
theorem nodup_key_inj {β : Type} : ∀ (l : List (Nat × β)),
    (l.map Prod.fst).Nodup → ∀ x p q, (x, p) ∈ l → (x, q) ∈ l → p = q := by
  intro l
  induction l with
  | nil => intro _ x p q h; cases h
  | cons a t ih =>
    intro hnodup x p q hp hq
    rw [List.map_cons] at hnodup
    have hna : a.1 ∉ t.map Prod.fst := (List.nodup_cons.mp hnodup).1
    have hnt : (t.map Prod.fst).Nodup := (List.nodup_cons.mp hnodup).2
    rcases List.mem_cons.mp hp with hp0 | hp0 <;> rcases List.mem_cons.mp hq with hq0 | hq0
    · rw [← hp0] at hq0; exact (Prod.mk.injEq _ _ _ _ ▸ hq0.symm).2
    · exfalso
      apply hna
      rw [← hp0]
      exact List.mem_map.mpr ⟨(x, q), hq0, rfl⟩
    · exfalso
      apply hna
      rw [← hq0]
      exact List.mem_map.mpr ⟨(x, p), hp0, rfl⟩
    · exact ih hnt x p q hp0 hq0

/-- No edge joins `{a, b}` iff `edgeWeight` gives nothing. -/
theorem edgeWeight_eq_none_iff {G : Graph} {a b : Nat} :
    G.edgeWeight a b = none ↔ ∀ e ∈ G.edges, edgeMatches a b e = false := by
  unfold Graph.edgeWeight
  rw [Option.map_eq_none', List.find?_eq_none]
  constructor
  · intro h e he
    exact Bool.eq_false_iff.mpr (h e he)
  · intro h e he hme
    rw [h e he] at hme
    cases hme

/-- `buildGraph` as a fold of its named steps. -/
theorem buildGraph_eq_foldl (F2 : Q2 → Q2 → Option ℚ) (fac : List (Nat × Q2))
    (nofly : ZoneColl) :
    buildGraph F2 fac nofly = fac.foldl (buildOuterStep F2 fac nofly) Graph.empty := rfl

/-- The simple builder is the generic builder at the simple pricing. -/
theorem simpleCreateGraph_eq (ctx : GeoCtx) (fac : List (Nat × Q2))
    (nofly avoid : ZoneColl) (rng : ℚ) :
    simpleCreateGraph ctx fac nofly avoid rng =
      buildGraph (builderEdgeWeight ctx nofly avoid rng) fac nofly := rfl

/-- The advanced builder is the generic builder at the segmented pricing. -/
theorem advCreateGraph_eq (ctx : GeoCtx) (fac : List (Nat × Q2))
    (roads buildings openSpace nofly avoid : ZoneColl) (rng : ℚ) :
    advCreateGraph ctx fac roads buildings openSpace nofly avoid rng =
      buildGraph (advEdgeWeight ctx roads buildings openSpace nofly avoid rng) fac nofly := rfl

/-- Unfolding of the simple inserter when the point is admissible. -/
theorem simpleAddNode_not_contained (ctx : GeoCtx) (G : Graph) (loc : Q2)
    (nm : String) (fac : List (Nat × Q2)) (nofly avoid : ZoneColl) (rng : ℚ)
    (h : nofly.containsB loc = false) :
    simpleAddNode ctx G loc nm fac nofly avoid rng =
      (some (newNodeIdx G),
        insertLoop (inserterEdgeWeight ctx nofly avoid rng loc) (newNodeIdx G) fac
          ((G.addNodePosName (newNodeIdx G) loc nm).setPosAll
            (dictSet (G.addNodePosName (newNodeIdx G) loc nm).posDict (newNodeIdx G) loc))) := by
  unfold simpleAddNode insertLoop
  rw [if_neg (by simp [h])]

/-- Unfolding of the advanced inserter when the point is admissible. -/
theorem advAddNode_not_contained (ctx : GeoCtx) (G : Graph) (loc : Q2)
    (nm : String) (fac : List (Nat × Q2))
    (roads buildings openSpace nofly avoid : ZoneColl) (rng : ℚ)
    (h : nofly.containsB loc = false) :
    advAddNode ctx G loc nm fac roads buildings openSpace nofly avoid rng =
      (some (newNodeIdx G),
        insertLoop (advEdgeWeight ctx roads buildings openSpace nofly avoid rng loc)
          (newNodeIdx G) fac
          ((G.addNodePosName (newNodeIdx G) loc nm).setPosAll
            (dictSet (G.addNodePosName (newNodeIdx G) loc nm).posDict (newNodeIdx G) loc))) := by
  unfold advAddNode insertLoop
  rw [if_neg (by simp [h])]

/-- The insertion loop never changes nodes when the new node and every
facility id are already present. -/
theorem insertLoop_nodes {F1 : Q2 → Option ℚ} {idx : Nat} {fac : List (Nat × Q2)}
    {G : Graph} (hidx : G.hasNode idx = true)
    (hfac : ∀ r ∈ fac, G.hasNode r.1 = true) :
    (insertLoop F1 idx fac G).nodes = G.nodes := by
  unfold insertLoop
  refine foldl_preserves (fun H => H.nodes = G.nodes) fac _ G rfl ?_
  intro H r hr hH
  cases hF : F1 r.2 with
  | none => simpa [hF] using hH
  | some w =>
    simp only [hF]
    have hHidx : H.hasNode idx = true := by
      unfold Graph.hasNode; rw [hH]; exact hidx
    have hHr : H.hasNode r.1 = true := by
      unfold Graph.hasNode; rw [hH]; exact hfac r hr
    rw [nodes_addEdge_of_present hHidx hHr]
    exact hH

/-- Any edge present after the insertion loop either was present before or
joins the inserted node to a facility id, in that stored orientation. -/
theorem insertLoop_edges_mem {F1 : Q2 → Option ℚ} {idx : Nat}
    {fac : List (Nat × Q2)} {G : Graph}
    (hfresh : ∀ e ∈ G.edges, e.1 ≠ idx ∧ e.2.1 ≠ idx) :
    ∀ e ∈ (insertLoop F1 idx fac G).edges,
      e ∈ G.edges ∨ ∃ r ∈ fac, e.1 = idx ∧ e.2.1 = r.1 := by
  unfold insertLoop
  refine foldl_preserves
    (fun H : Graph => ∀ e ∈ H.edges, e ∈ G.edges ∨ ∃ r ∈ fac, e.1 = idx ∧ e.2.1 = r.1)
    fac _ G (fun e he => Or.inl he) ?_
  intro H r hr hH
  cases hF : F1 r.2 with
  | none => simpa [hF] using hH
  | some w =>
    simp only [hF]
    intro e he
    rcases mem_edges_addEdge he with h0 | h0 | ⟨hm, q, hq⟩
    · exact hH e h0
    · right; exact ⟨r, hr, by rw [h0], by rw [h0]⟩
    · rcases hH (e.1, e.2.1, q) hq with hG | ⟨r', hr', h1, h2⟩
      · exfalso
        have hf := hfresh (e.1, e.2.1, q) hG
        rcases edgeMatches_iff.mp hm with ⟨h1, h2⟩ | ⟨h1, h2⟩
        · exact hf.1 h1
        · exact hf.2 h2
      · right; exact ⟨r', hr', h1, h2⟩

/-- Pre-existing edges not incident to the inserted node survive the
insertion loop verbatim. -/
theorem insertLoop_edges_preserved {F1 : Q2 → Option ℚ} {idx : Nat}
    {fac : List (Nat × Q2)} {G : Graph}
    (hfresh : ∀ e ∈ G.edges, e.1 ≠ idx ∧ e.2.1 ≠ idx) :
    ∀ e ∈ G.edges, e ∈ (insertLoop F1 idx fac G).edges := by
  unfold insertLoop
  refine foldl_preserves (fun H => ∀ e ∈ G.edges, e ∈ H.edges)
    fac _ G (fun e he => he) ?_
  intro H r hr hH
  cases hF : F1 r.2 with
  | none => simpa [hF] using hH
  | some w =>
    simp only [hF]
    intro e he
    have hf := hfresh e he
    have hm : edgeMatches idx r.1 e = false := by
      rw [← Bool.not_eq_true]
      intro hmm
      rcases edgeMatches_iff.mp hmm with ⟨h1, h2⟩ | ⟨h1, h2⟩
      · exact hf.1 h1
      · exact hf.2 h2
    exact mem_edges_addEdge_of_mem (hH e he) hm

/-- The insertion loop does not change the weight of any pair not
involving the inserted node. -/
theorem insertLoop_edgeWeight_other {F1 : Q2 → Option ℚ} {idx : Nat}
    {fac : List (Nat × Q2)} {G : Graph} {a b : Nat}
    (ha : a ≠ idx) (hb : b ≠ idx) :
    (insertLoop F1 idx fac G).edgeWeight a b = G.edgeWeight a b := by
  unfold insertLoop
  refine foldl_preserves (fun H => H.edgeWeight a b = G.edgeWeight a b)
    fac _ G rfl ?_
  intro H r hr hH
  cases hF : F1 r.2 with
  | none => simpa [hF] using hH
  | some w =>
    simp only [hF]
    rw [edgeWeight_addEdge_other]
    · exact hH
    · rintro (⟨h1, _⟩ | ⟨_, h2⟩)
      · exact ha h1
      · exact hb h2

/-- A `foldl` establishes an invariant at a member and preserves it
afterwards. -/
theorem foldl_reach {α β : Type} (P : β → Prop) (l : List α) (f : β → α → β)
    (b : β) (x : α) (hx : x ∈ l)
    (hstep : ∀ y a, a ∈ l → P y → P (f y a))
    (hest : ∀ y, P (f y x)) : P (l.foldl f b) := by
  obtain ⟨s, t, rfl⟩ := List.append_of_mem hx
  rw [List.foldl_append, List.foldl_cons]
  refine foldl_preserves P t _ _ (hest _) ?_
  intro y a ha hy
  exact hstep y a (List.mem_append_right _ (List.mem_cons_of_mem _ ha)) hy

/-- A facility contained in a no-fly zone, to which every priced
connection is refused, never becomes a node of the built graph. -/
theorem buildGraph_no_node {F2 : Q2 → Q2 → Option ℚ} {fac : List (Nat × Q2)}
    {nofly : ZoneColl} {b : Nat} {pb : Q2}
    (hnd : (fac.map Prod.fst).Nodup)
    (hb : (b, pb) ∈ fac) (hcont : nofly.containsB pb = true)
    (hFb : ∀ p, F2 p pb = none) :
    (buildGraph F2 fac nofly).hasNode b = false := by
  rw [buildGraph_eq_foldl]
  refine foldl_preserves (fun H : Graph => H.hasNode b = false) fac _ _ (by rfl) ?_
  intro G r1 hr1 hG
  unfold buildOuterStep
  by_cases hc : nofly.containsB r1.2 = true
  · rw [if_pos hc]; exact hG
  · rw [if_neg hc]
    have hr1b : r1.1 ≠ b := by
      intro hEq
      have hmem : (b, r1.2) ∈ fac := hEq ▸ (show (r1.1, r1.2) ∈ fac from hr1)
      have h22 : r1.2 = pb := nodup_key_inj fac hnd b r1.2 pb hmem hb
      rw [h22] at hc
      exact hc hcont
    have hstart : (G.addNodePos r1.1 r1.2).hasNode b = false := by
      cases hx : (G.addNodePos r1.1 r1.2).hasNode b with
      | false => rfl
      | true =>
        exfalso
        rcases hasNode_addNodePos.mp hx with h0 | h0
        · rw [hG] at h0; cases h0
        · exact hr1b h0.symm
    refine foldl_preserves (fun H : Graph => H.hasNode b = false) fac _ _ hstart ?_
    intro H r2 hr2 hH
    unfold buildInnerStep
    by_cases hg : (r1.1 == r2.1) = true
    · rw [if_pos hg]; exact hH
    · rw [if_neg hg]
      cases hF : F2 r1.2 r2.2 with
      | none => exact hH
      | some w =>
        have hr2b : r2.1 ≠ b := by
          intro hEq
          have hmem : (b, r2.2) ∈ fac := hEq ▸ (show (r2.1, r2.2) ∈ fac from hr2)
          have h22 : r2.2 = pb := nodup_key_inj fac hnd b r2.2 pb hmem hb
          rw [h22, hFb r1.2] at hF
          cases hF
        cases hx : (H.addEdge r1.1 r2.1 w).hasNode b with
        | false => rfl
        | true =>
          exfalso
          rcases hasNode_addEdge.mp hx with h0 | h0 | h0
          · rw [hH] at h0; cases h0
          · exact hr1b h0.symm
          · exact hr2b h0.symm

/-- Every edge of a built graph joins two facility ids whose recorded
positions were priced successfully in one of the two orientations. -/
theorem buildGraph_edges_mem {F2 : Q2 → Q2 → Option ℚ} {fac : List (Nat × Q2)}
    {nofly : ZoneColl} :
    ∀ e ∈ (buildGraph F2 fac nofly).edges,
      ∃ pu pv, (e.1, pu) ∈ fac ∧ (e.2.1, pv) ∈ fac ∧
        ((F2 pu pv).isSome = true ∨ (F2 pv pu).isSome = true) := by
  rw [buildGraph_eq_foldl]
  refine foldl_preserves
    (fun H : Graph => ∀ e ∈ H.edges,
      ∃ pu pv, (e.1, pu) ∈ fac ∧ (e.2.1, pv) ∈ fac ∧
        ((F2 pu pv).isSome = true ∨ (F2 pv pu).isSome = true))
    fac _ _ (fun e he => by cases he) ?_
  intro G r1 hr1 hG
  unfold buildOuterStep
  by_cases hc : nofly.containsB r1.2 = true
  · rw [if_pos hc]; exact hG
  · rw [if_neg hc]
    have hstart : ∀ e ∈ (G.addNodePos r1.1 r1.2).edges,
        ∃ pu pv, (e.1, pu) ∈ fac ∧ (e.2.1, pv) ∈ fac ∧
          ((F2 pu pv).isSome = true ∨ (F2 pv pu).isSome = true) := by
      intro e he
      rw [edges_addNodePos] at he
      exact hG e he
    refine foldl_preserves
      (fun H : Graph => ∀ e ∈ H.edges,
        ∃ pu pv, (e.1, pu) ∈ fac ∧ (e.2.1, pv) ∈ fac ∧
          ((F2 pu pv).isSome = true ∨ (F2 pv pu).isSome = true))
      fac _ _ hstart ?_
    intro H r2 hr2 hH
    unfold buildInnerStep
    by_cases hg : (r1.1 == r2.1) = true
    · rw [if_pos hg]; exact hH
    · rw [if_neg hg]
      cases hF : F2 r1.2 r2.2 with
      | none => exact hH
      | some w =>
        intro e he
        rcases mem_edges_addEdge he with h0 | h0 | ⟨hm, q, hq⟩
        · exact hH e h0
        · refine ⟨r1.2, r2.2, ?_, ?_, Or.inl ?_⟩
          · rw [h0]; exact (show (r1.1, r1.2) ∈ fac from hr1)
          · rw [h0]; exact (show (r2.1, r2.2) ∈ fac from hr2)
          · rw [hF]; rfl
        · rcases hH (e.1, e.2.1, q) hq with ⟨pu, pv, h1, h2, h3⟩
          exact ⟨pu, pv, h1, h2, h3⟩

/-- A pair of in-graph facilities whose connection is priced identically in
both orientations ends with exactly that edge weight in the built graph. -/
theorem buildGraph_edgeWeight {F2 : Q2 → Q2 → Option ℚ} {fac : List (Nat × Q2)}
    {nofly : ZoneColl} {a b : Nat} {pa pb : Q2} {w : ℚ}
    (hnd : (fac.map Prod.fst).Nodup)
    (ha : (a, pa) ∈ fac) (hb : (b, pb) ∈ fac) (hab : a ≠ b)
    (hca : nofly.containsB pa = false)
    (hw : F2 pa pb = some w) (hw2 : F2 pb pa = some w) :
    (buildGraph F2 fac nofly).edgeWeight a b = some w := by
  rw [buildGraph_eq_foldl]
  have hinner : ∀ (r1 : Nat × Q2), r1 ∈ fac → ∀ (H : Graph) (r2 : Nat × Q2),
      r2 ∈ fac → H.edgeWeight a b = some w →
      (buildInnerStep F2 r1 H r2).edgeWeight a b = some w := by
    intro r1 hr1 H r2 hr2 hH
    unfold buildInnerStep
    by_cases hg : (r1.1 == r2.1) = true
    · rw [if_pos hg]; exact hH
    · rw [if_neg hg]
      cases hF : F2 r1.2 r2.2 with
      | none => exact hH
      | some w0 =>
        by_cases hmatch : (a = r1.1 ∧ b = r2.1) ∨ (a = r2.1 ∧ b = r1.1)
        · rcases hmatch with ⟨h1, h2⟩ | ⟨h1, h2⟩
          · have hma : (a, r1.2) ∈ fac := by
              rw [h1]; exact (show (r1.1, r1.2) ∈ fac from hr1)
            have hmb : (b, r2.2) ∈ fac := by
              rw [h2]; exact (show (r2.1, r2.2) ∈ fac from hr2)
            have e1 : r1.2 = pa := nodup_key_inj fac hnd a r1.2 pa hma ha
            have e2 : r2.2 = pb := nodup_key_inj fac hnd b r2.2 pb hmb hb
            have hw0 : w0 = w := by
              rw [e1, e2] at hF
              rw [hF] at hw
              exact Option.some.inj hw
            rw [← h1, ← h2, hw0]
            exact edgeWeight_addEdge_same _ _ _ _
          · have hma : (a, r2.2) ∈ fac := by
              rw [h1]; exact (show (r2.1, r2.2) ∈ fac from hr2)
            have hmb : (b, r1.2) ∈ fac := by
              rw [h2]; exact (show (r1.1, r1.2) ∈ fac from hr1)
            have e1 : r2.2 = pa := nodup_key_inj fac hnd a r2.2 pa hma ha
            have e2 : r1.2 = pb := nodup_key_inj fac hnd b r1.2 pb hmb hb
            have hw0 : w0 = w := by
              rw [e1, e2] at hF
              rw [hF] at hw2
              exact Option.some.inj hw2
            rw [← h2, ← h1, hw0, edgeWeight_comm]
            exact edgeWeight_addEdge_same _ _ _ _
        · rw [edgeWeight_addEdge_other _ _ _ _ _ _ hmatch]
          exact hH
  refine foldl_reach (fun H : Graph => H.edgeWeight a b = some w) fac _ Graph.empty
    (a, pa) ha ?_ ?_
  · intro G r1 hr1 hG
    unfold buildOuterStep
    by_cases hc : nofly.containsB r1.2 = true
    · rw [if_pos hc]; exact hG
    · rw [if_neg hc]
      have hstart : (G.addNodePos r1.1 r1.2).edgeWeight a b = some w := by
        rw [edgeWeight_eq_of_edges (edges_addNodePos G r1.1 r1.2) a b]
        exact hG
      exact foldl_preserves (fun H : Graph => H.edgeWeight a b = some w) fac _ _ hstart
        (fun H r2 hr2 hH => hinner r1 hr1 H r2 hr2 hH)
  · intro G
    unfold buildOuterStep
    rw [if_neg (by simp [hca])]
    refine foldl_reach (fun H : Graph => H.edgeWeight a b = some w) fac _ _ (b, pb) hb
      (fun H r2 hr2 hH => hinner (a, pa) ha H r2 hr2 hH) ?_
    intro H
    unfold buildInnerStep
    rw [if_neg (by simp [hab])]
    have hw9 : F2 (a, pa).2 (b, pb).2 = some w := hw
    simp only [hw9]
    exact edgeWeight_addEdge_same _ _ _ _

/-- C5: for every sub-segment, the segmented-policy weight equals the
sub-segment's own length multiplied, composed multiplicatively, by 1.5
when it intersects roads, by 1 (a no-op) when it intersects buildings, by
0.8 when it intersects open space and by 3 when it intersects an
avoidance zone; the total edge weight is the sum of all sub-segment
weights; and the building check never changes the weight. -/
theorem c5_segment_weight_structure (ctx : GeoCtx)
    (roads buildings openSpace avoid : ZoneColl) (s : Seg) :
    (calculate_segment_weight ctx roads buildings openSpace avoid s =
      ctx.slen s * (if roads.intersectsB s then (1.5 : ℚ) else 1)
        * (if buildings.intersectsB s then 1 else 1)
        * (if openSpace.intersectsB s then (0.8 : ℚ) else 1)
        * (if avoid.intersectsB s then 3 else 1)) ∧
    (∀ buildings2 : ZoneColl,
      calculate_segment_weight ctx roads buildings openSpace avoid s =
        calculate_segment_weight ctx roads buildings2 openSpace avoid s) ∧
    (calculate_edge_weight ctx roads buildings openSpace avoid s =
      ((segment_edge ctx s 1).map
        (calculate_segment_weight ctx roads buildings openSpace avoid)).sum) := by
  refine ⟨?_, ?_, rfl⟩
  · unfold calculate_segment_weight
    by_cases h1 : roads.intersectsB s = true <;>
    by_cases h2 : buildings.intersectsB s = true <;>
    by_cases h3 : openSpace.intersectsB s = true <;>
    by_cases h4 : avoid.intersectsB s = true <;>
      simp only [h1, h2, h3, h4, if_true, if_false, Bool.false_eq_true] <;> ring
  · intro b2
    unfold calculate_segment_weight
    by_cases h2 : buildings.intersectsB s = true <;>
    by_cases h2b : b2.intersectsB s = true <;>
      simp only [h2, h2b, if_true, if_false, Bool.false_eq_true, mul_one]

/-- C1 counterexample: on a connection whose straight line crosses an
avoidance zone, the simple GraphBuilder pricing and the simple
NodeInserter pricing disagree (factor 10 against factor 3), refuting the
claimed identical edge weight. -/
theorem c1_counterexample :
    builderEdgeWeight ctxUnit zoneNone zoneInterAll 2 (0, 0) (1, 1) ≠
      inserterEdgeWeight ctxUnit zoneNone zoneInterAll 2 (0, 0) (1, 1) := by
  simp only [builderEdgeWeight, inserterEdgeWeight, ctxUnit, zoneNone, zoneInterAll]
  norm_num

/-- C1 (amended): the simple NodeInserter forbids a connection in exactly
the same cases as the simple GraphBuilder, and produces an identical edge
weight whenever the line does not cross an avoidance zone; when it does,
the builder prices the connection at distance × 10 while the inserter
prices it at distance × 3. -/
theorem c1_amended (ctx : GeoCtx) (nofly avoid : ZoneColl) (rng : ℚ) (p q : Q2) :
    ((builderEdgeWeight ctx nofly avoid rng p q = none) ↔
      (inserterEdgeWeight ctx nofly avoid rng p q = none)) ∧
    (avoid.intersectsB (p, q) = false →
      builderEdgeWeight ctx nofly avoid rng p q =
        inserterEdgeWeight ctx nofly avoid rng p q) ∧
    (avoid.intersectsB (p, q) = true → ctx.dist p q ≤ rng →
      nofly.intersectsB (p, q) = false →
      builderEdgeWeight ctx nofly avoid rng p q = some (ctx.dist p q * 10) ∧
      inserterEdgeWeight ctx nofly avoid rng p q = some (ctx.dist p q * 3)) := by
  unfold builderEdgeWeight inserterEdgeWeight
  by_cases hd : ctx.dist p q ≤ rng <;>
  by_cases hn : nofly.intersectsB (p, q) = true <;>
  by_cases hv : avoid.intersectsB (p, q) = true <;>
    simp [hd, hn, hv]

/-- C1 amended witness at concrete inputs. -/
theorem c1_amended_witness :
    (builderEdgeWeight ctxUnit zoneNone zoneNone 2 (0, 0) (1, 1) =
      inserterEdgeWeight ctxUnit zoneNone zoneNone 2 (0, 0) (1, 1)) ∧
    (builderEdgeWeight ctxUnit zoneNone zoneInterAll 2 (0, 0) (1, 1) =
        some (ctxUnit.dist (0, 0) (1, 1) * 10) ∧
      inserterEdgeWeight ctxUnit zoneNone zoneInterAll 2 (0, 0) (1, 1) =
        some (ctxUnit.dist (0, 0) (1, 1) * 3)) := by
  constructor
  · exact (c1_amended ctxUnit zoneNone zoneNone 2 (0, 0) (1, 1)).2.1 rfl
  · exact (c1_amended ctxUnit zoneNone zoneInterAll 2 (0, 0) (1, 1)).2.2
      rfl (by norm_num [ctxUnit]) rfl

/-- C9: for a point contained in a no-fly zone, both NodeInserter variants
return the not-added outcome `None` and leave the given graph completely
unchanged. -/
theorem c9_nofly_point_not_added (ctx : GeoCtx) (G : Graph) (loc : Q2)
    (nm : String) (fac : List (Nat × Q2))
    (roads buildings openSpace nofly avoid : ZoneColl) (rng : ℚ)
    (h : nofly.containsB loc = true) :
    simpleAddNode ctx G loc nm fac nofly avoid rng = (none, G) ∧
    advAddNode ctx G loc nm fac roads buildings openSpace nofly avoid rng =
      (none, G) := by
  constructor
  · unfold simpleAddNode; rw [if_pos h]
  · unfold advAddNode; rw [if_pos h]

/-- C9 witness at concrete inputs. -/
theorem c9_nofly_point_not_added_witness :
    simpleAddNode ctxUnit g0 (0, 0) "Start" fac2 zoneAll zoneNone 1 =
      (none, g0) ∧
    advAddNode ctxUnit g0 (0, 0) "Start" fac2 zoneNone zoneNone zoneNone
      zoneAll zoneNone 1 = (none, g0) :=
  c9_nofly_point_not_added ctxUnit g0 (0, 0) "Start" fac2 zoneNone zoneNone
    zoneNone zoneAll zoneNone 1 rfl

/-- Interpolating along the reversed line is interpolating the original
line from the far end. -/
theorem interp_rev (s : Seg) (t : ℚ) : interp (Seg.rev s) t = interp s (1 - t) := by
  simp only [interp, Seg.rev, Prod.mk.injEq]
  constructor <;> ring

/-- The `j`-th sub-segment of the reversed line is the reversal of the
`(N-1-j)`-th sub-segment of the line. -/
theorem subseg_rev {s : Seg} {N j : ℕ} (hj : j < N) :
    subseg (Seg.rev s) N j = Seg.rev (subseg s N (N - 1 - j)) := by
  have hNQ : (N : ℚ) ≠ 0 := by
    have : 0 < N := lt_of_le_of_lt (Nat.zero_le j) hj
    exact_mod_cast this.ne'
  have hk : ((N - 1 - j : ℕ) : ℚ) = (N : ℚ) - 1 - (j : ℚ) := by
    have h9 : N - 1 - j = N - (1 + j) := by omega
    rw [h9, Nat.cast_sub (by omega)]
    push_cast
    ring
  unfold subseg Seg.rev
  dsimp only
  have hir : ∀ t : ℚ, interp (s.2, s.1) t = interp s (1 - t) :=
    fun t => interp_rev s t
  rw [hir, hir]
  simp only [Prod.mk.injEq]
  constructor
  · congr 1
    rw [hk]
    field_simp
    ring
  · congr 1
    rw [hk]
    field_simp
    ring

/-- Segment weight is invariant under reversing a segment, given
orientation-independent primitives. -/
theorem calculate_segment_weight_rev {ctx : GeoCtx}
    {roads buildings openSpace avoid : ZoneColl} {t : Seg}
    (hlen : ctx.slen (Seg.rev t) = ctx.slen t)
    (hroads : roads.intersectsB (Seg.rev t) = roads.intersectsB t)
    (hbld : buildings.intersectsB (Seg.rev t) = buildings.intersectsB t)
    (hopen : openSpace.intersectsB (Seg.rev t) = openSpace.intersectsB t)
    (havoid : avoid.intersectsB (Seg.rev t) = avoid.intersectsB t) :
    calculate_segment_weight ctx roads buildings openSpace avoid (Seg.rev t) =
      calculate_segment_weight ctx roads buildings openSpace avoid t := by
  unfold calculate_segment_weight
  rw [hlen, hroads, hbld, hopen, havoid]

/-- A mapped `List.range` sum is the corresponding `Finset.range` sum. -/
theorem list_range_map_sum {M : Type} [AddCommMonoid M] (f : ℕ → M) :
    ∀ n : ℕ, ((List.range n).map f).sum = ∑ i ∈ Finset.range n, f i := by
  intro n
  induction n with
  | zero => simp
  | succ n ih =>
    rw [List.range_succ, List.map_append, List.sum_append, Finset.sum_range_succ, ih]
    simp

/-- C7: the segmented-policy edge weight computed from A to B equals the
weight computed from B to A, over exact arithmetic, whenever the external
length and intersection primitives are orientation-independent (as real
geometric length and intersection are). -/
theorem c7_edge_weight_reversal (ctx : GeoCtx)
    (roads buildings openSpace avoid : ZoneColl) (s : Seg)
    (hlen : ∀ t : Seg, ctx.slen (Seg.rev t) = ctx.slen t)
    (hroads : ∀ t : Seg, roads.intersectsB (Seg.rev t) = roads.intersectsB t)
    (hbld : ∀ t : Seg, buildings.intersectsB (Seg.rev t) = buildings.intersectsB t)
    (hopen : ∀ t : Seg, openSpace.intersectsB (Seg.rev t) = openSpace.intersectsB t)
    (havoid : ∀ t : Seg, avoid.intersectsB (Seg.rev t) = avoid.intersectsB t) :
    calculate_edge_weight ctx roads buildings openSpace avoid (Seg.rev s) =
      calculate_edge_weight ctx roads buildings openSpace avoid s := by
  unfold calculate_edge_weight segment_edge
  have hN : numSegments ctx (Seg.rev s) 1 = numSegments ctx s 1 := by
    unfold numSegments
    rw [hlen s]
  rw [hN, List.map_map, List.map_map, list_range_map_sum, list_range_map_sum]
  calc ∑ j ∈ Finset.range (numSegments ctx s 1),
        (calculate_segment_weight ctx roads buildings openSpace avoid ∘
          subseg (Seg.rev s) (numSegments ctx s 1)) j
      = ∑ j ∈ Finset.range (numSegments ctx s 1),
          (calculate_segment_weight ctx roads buildings openSpace avoid ∘
            subseg s (numSegments ctx s 1)) (numSegments ctx s 1 - 1 - j) := by
        refine Finset.sum_congr rfl ?_
        intro j hj
        simp only [Function.comp]
        rw [subseg_rev (Finset.mem_range.mp hj)]
        exact calculate_segment_weight_rev (hlen _) (hroads _) (hbld _)
          (hopen _) (havoid _)
    _ = ∑ j ∈ Finset.range (numSegments ctx s 1),
          (calculate_segment_weight ctx roads buildings openSpace avoid ∘
            subseg s (numSegments ctx s 1)) j :=
        Finset.sum_range_reflect _ _

/-- C7 witness at concrete inputs. -/
theorem c7_edge_weight_reversal_witness :
    calculate_edge_weight ctxLen2 zoneNone zoneNone zoneNone zoneNone
        (Seg.rev ((0, 0), (4, 0))) =
      calculate_edge_weight ctxLen2 zoneNone zoneNone zoneNone zoneNone
        ((0, 0), (4, 0)) :=
  c7_edge_weight_reversal ctxLen2 zoneNone zoneNone zoneNone zoneNone
    ((0, 0), (4, 0)) (fun _ => rfl) (fun _ => rfl) (fun _ => rfl)
    (fun _ => rfl) (fun _ => rfl)

/-- A line shorter than the unit segment length yields zero segments. -/
theorem numSegments_eq_zero {ctx : GeoCtx} {s : Seg} (h : ctx.slen s < 1) :
    numSegments ctx s 1 = 0 := by
  unfold numSegments intTrunc
  rw [div_one]
  by_cases hq : ctx.slen s < 0
  · rw [if_pos hq]
    exact Int.toNat_eq_zero.mpr (Int.ceil_le.mpr (by exact_mod_cast hq.le))
  · rw [if_neg hq]
    push_neg at hq
    have h0 : ⌊ctx.slen s⌋ = 0 := Int.floor_eq_zero_iff.mpr ⟨hq, h⟩
    rw [h0]
    rfl

/-- A line shorter than the unit segment length has segmented weight 0. -/
theorem calculate_edge_weight_zero {ctx : GeoCtx}
    (roads buildings openSpace avoid : ZoneColl) {s : Seg}
    (h : ctx.slen s < 1) :
    calculate_edge_weight ctx roads buildings openSpace avoid s = 0 := by
  unfold calculate_edge_weight segment_edge
  rw [numSegments_eq_zero h]
  rfl

/-- A point not on a no-fly-intersecting line is not contained in a no-fly
zone, given the geometric containment-implies-intersection property. -/
theorem not_contained_of_not_intersecting {nofly : ZoneColl} {pa pb : Q2}
    (hsymn : ∀ t : Seg, nofly.intersectsB (Seg.rev t) = nofly.intersectsB t)
    (hci : ∀ p q : Q2, nofly.containsB q = true → nofly.intersectsB (p, q) = true)
    (hnf : nofly.intersectsB (pa, pb) = false) :
    nofly.containsB pa = false ∧ nofly.containsB pb = false := by
  constructor
  · cases hcc : nofly.containsB pa with
    | false => rfl
    | true =>
      exfalso
      have h1 := hci pb pa hcc
      have h2 : nofly.intersectsB (pa, pb) = nofly.intersectsB (pb, pa) :=
        hsymn (pb, pa)
      rw [h1, hnf] at h2
      exact Bool.false_ne_true h2
  · cases hcc : nofly.containsB pb with
    | false => rfl
    | true =>
      exfalso
      have h1 := hci pa pb hcc
      rw [hnf] at h1
      exact Bool.false_ne_true h1

/-- C6: `segment_edge` cuts a line into `N = floor(length/segment_length)`
equal sub-segments; when the length is below the (default, 1) segment
length, `N = 0`, no segments are produced and the computed edge weight is
exactly 0; and the segmented GraphBuilder still adds the in-range,
non-forbidden edge with that zero weight. -/
theorem c6_segmentation (ctx : GeoCtx) :
    (∀ (s : Seg) (L : ℚ), 0 ≤ ctx.slen s → 0 < L →
      ((segment_edge ctx s L).length : ℤ) = ⌊ctx.slen s / L⌋) ∧
    (∀ (s : Seg) (L : ℚ) (i : ℕ), i < numSegments ctx s L →
      (subseg s (numSegments ctx s L) i).2.1 -
          (subseg s (numSegments ctx s L) i).1.1 =
        (s.2.1 - s.1.1) / ((numSegments ctx s L : ℕ) : ℚ) ∧
      (subseg s (numSegments ctx s L) i).2.2 -
          (subseg s (numSegments ctx s L) i).1.2 =
        (s.2.2 - s.1.2) / ((numSegments ctx s L : ℕ) : ℚ)) ∧
    (∀ s : Seg, ctx.slen s < 1 →
      segment_edge ctx s 1 = [] ∧
      ∀ roads buildings openSpace avoid : ZoneColl,
        calculate_edge_weight ctx roads buildings openSpace avoid s = 0) ∧
    (∀ (fac : List (Nat × Q2)) (roads buildings openSpace nofly avoid : ZoneColl)
        (rng : ℚ) (a b : Nat) (pa pb : Q2),
      (fac.map Prod.fst).Nodup → (a, pa) ∈ fac → (b, pb) ∈ fac → a ≠ b →
      (∀ p q : Q2, ctx.dist p q = ctx.dist q p) →
      (∀ t : Seg, nofly.intersectsB (Seg.rev t) = nofly.intersectsB t) →
      (∀ p q : Q2, nofly.containsB q = true → nofly.intersectsB (p, q) = true) →
      (∀ t : Seg, ctx.slen (Seg.rev t) = ctx.slen t) →
      ctx.dist pa pb ≤ rng → nofly.intersectsB (pa, pb) = false →
      ctx.slen (pa, pb) < 1 →
      (advCreateGraph ctx fac roads buildings openSpace nofly avoid
        rng).edgeWeight a b = some 0) := by
  refine ⟨?_, ?_, ?_, ?_⟩
  · intro s L h0 hL
    unfold segment_edge
    rw [List.length_map, List.length_range]
    unfold numSegments intTrunc
    have hd : 0 ≤ ctx.slen s / L := div_nonneg h0 hL.le
    rw [if_neg (not_lt.mpr hd)]
    exact Int.toNat_of_nonneg (Int.floor_nonneg.mpr hd)
  · intro s L i hi
    have hNQ : ((numSegments ctx s L : ℕ) : ℚ) ≠ 0 := by
      have : 0 < numSegments ctx s L := lt_of_le_of_lt (Nat.zero_le i) hi
      exact_mod_cast this.ne'
    unfold subseg interp
    dsimp only
    constructor <;>
    · field_simp
      ring
  · intro s h
    refine ⟨?_, ?_⟩
    · unfold segment_edge
      rw [numSegments_eq_zero h]
      rfl
    · intro roads buildings openSpace avoid
      exact calculate_edge_weight_zero roads buildings openSpace avoid h
  · intro fac roads buildings openSpace nofly avoid rng a b pa pb hnd ha hb hab
      hsymd hsymn hci hsyml hd hnf hlen1
    rw [advCreateGraph_eq]
    have hca := (not_contained_of_not_intersecting hsymn hci hnf).1
    have hnf2 : nofly.intersectsB (pb, pa) = false := by
      have h2 : nofly.intersectsB (pa, pb) = nofly.intersectsB (pb, pa) :=
        hsymn (pb, pa)
      rw [hnf] at h2
      exact h2.symm
    have hlen2 : ctx.slen (pb, pa) < 1 := by
      have h2 : ctx.slen (pb, pa) = ctx.slen (pa, pb) := hsyml (pa, pb)
      rw [h2]
      exact hlen1
    have hw : advEdgeWeight ctx roads buildings openSpace nofly avoid rng pa pb =
        some 0 := by
      unfold advEdgeWeight
      rw [if_pos hd, if_neg (by simp [hnf]),
        calculate_edge_weight_zero roads buildings openSpace avoid hlen1]
    have hw2 : advEdgeWeight ctx roads buildings openSpace nofly avoid rng pb pa =
        some 0 := by
      unfold advEdgeWeight
      rw [hsymd pb pa, if_pos hd, if_neg (by simp [hnf2]),
        calculate_edge_weight_zero roads buildings openSpace avoid hlen2]
    exact buildGraph_edgeWeight hnd ha hb hab hca hw hw2

/-- C6 witness at concrete inputs. -/
theorem c6_segmentation_witness :
    ((segment_edge ctxHalf ((0, 0), (1, 0)) 1).length : ℤ) =
      ⌊ctxHalf.slen ((0, 0), (1, 0)) / 1⌋ ∧
    (segment_edge ctxHalf ((0, 0), (1, 0)) 1 = [] ∧
      calculate_edge_weight ctxHalf zoneNone zoneNone zoneNone zoneNone
        ((0, 0), (1, 0)) = 0) ∧
    (advCreateGraph ctxHalf fac2 zoneNone zoneNone zoneNone zoneNone zoneNone
      2).edgeWeight 0 1 = some 0 := by
  refine ⟨?_, ?_, ?_⟩
  · exact (c6_segmentation ctxHalf).1 ((0, 0), (1, 0)) 1
      (by norm_num [ctxHalf]) (by norm_num)
  · have h := (c6_segmentation ctxHalf).2.2.1 ((0, 0), (1, 0))
      (by norm_num [ctxHalf])
    exact ⟨h.1, h.2 zoneNone zoneNone zoneNone zoneNone⟩
  · exact (c6_segmentation ctxHalf).2.2.2 fac2 zoneNone zoneNone zoneNone
      zoneNone zoneNone 2 0 1 (0, 0) (1, 0)
      (by decide) (by simp [fac2]) (by simp [fac2]) (by decide)
      (fun _ _ => rfl) (fun _ => rfl)
      (fun p q h => absurd h Bool.false_ne_true) (fun _ => rfl)
      (by norm_num [ctxHalf]) rfl (by norm_num [ctxHalf])

/-- A successfully priced simple connection does not cross a no-fly
zone. -/
theorem builderEdgeWeight_isSome_no_nofly {ctx : GeoCtx} {nofly avoid : ZoneColl}
    {rng : ℚ} {p q : Q2}
    (h : (builderEdgeWeight ctx nofly avoid rng p q).isSome = true) :
    nofly.intersectsB (p, q) = false := by
  unfold builderEdgeWeight at h
  by_cases hd : ctx.dist p q ≤ rng
  · rw [if_pos hd] at h
    by_cases hn : nofly.intersectsB (p, q) = true
    · rw [if_pos hn] at h
      simp at h
    · exact Bool.eq_false_iff.mpr hn
  · rw [if_neg hd] at h
    simp at h

/-- C3: for distinct facilities within range whose connecting line does not
cross a no-fly zone, the simple builder's graph holds an edge weighing the
geodesic distance times 10 when the line crosses an avoidance zone and
times 1 otherwise; and every edge of the built graph joins facilities
whose connecting line does not cross a no-fly zone. -/
theorem c3_simple_builder_edges (ctx : GeoCtx) (fac : List (Nat × Q2))
    (nofly avoid : ZoneColl) (rng : ℚ)
    (hnd : (fac.map Prod.fst).Nodup)
    (hsymd : ∀ p q : Q2, ctx.dist p q = ctx.dist q p)
    (hsymn : ∀ t : Seg, nofly.intersectsB (Seg.rev t) = nofly.intersectsB t)
    (hsyma : ∀ t : Seg, avoid.intersectsB (Seg.rev t) = avoid.intersectsB t)
    (hci : ∀ p q : Q2, nofly.containsB q = true → nofly.intersectsB (p, q) = true) :
    (∀ (a b : Nat) (pa pb : Q2), (a, pa) ∈ fac → (b, pb) ∈ fac → a ≠ b →
      ctx.dist pa pb ≤ rng → nofly.intersectsB (pa, pb) = false →
      (simpleCreateGraph ctx fac nofly avoid rng).edgeWeight a b =
        some (ctx.dist pa pb *
          (if avoid.intersectsB (pa, pb) then 10 else 1))) ∧
    (∀ (u v : Nat) (q : ℚ),
      (simpleCreateGraph ctx fac nofly avoid rng).edgeWeight u v = some q →
      ∃ pu pv, (u, pu) ∈ fac ∧ (v, pv) ∈ fac ∧
        nofly.intersectsB (pu, pv) = false) := by
  constructor
  · intro a b pa pb ha hb hab hd hnf
    rw [simpleCreateGraph_eq]
    have hca := (not_contained_of_not_intersecting hsymn hci hnf).1
    have hnf2 : nofly.intersectsB (pb, pa) = false := by
      have h2 : nofly.intersectsB (pa, pb) = nofly.intersectsB (pb, pa) :=
        hsymn (pb, pa)
      rw [hnf] at h2
      exact h2.symm
    have hav2 : avoid.intersectsB (pb, pa) = avoid.intersectsB (pa, pb) := by
      have h2 : avoid.intersectsB (pa, pb) = avoid.intersectsB (pb, pa) :=
        hsyma (pb, pa)
      exact h2.symm
    have hw : builderEdgeWeight ctx nofly avoid rng pa pb =
        some (ctx.dist pa pb * (if avoid.intersectsB (pa, pb) then 10 else 1)) := by
      unfold builderEdgeWeight
      rw [if_pos hd, if_neg (by simp [hnf])]
      by_cases hv : avoid.intersectsB (pa, pb) = true
      · simp [hv]
      · simp [hv]
    have hw2 : builderEdgeWeight ctx nofly avoid rng pb pa =
        some (ctx.dist pa pb * (if avoid.intersectsB (pa, pb) then 10 else 1)) := by
      unfold builderEdgeWeight
      rw [hsymd pb pa, if_pos hd, if_neg (by simp [hnf2]), hav2]
      by_cases hv : avoid.intersectsB (pa, pb) = true
      · simp [hv]
      · simp [hv]
    exact buildGraph_edgeWeight hnd ha hb hab hca hw hw2
  · intro u v q hq
    rw [simpleCreateGraph_eq] at hq
    unfold Graph.edgeWeight at hq
    rcases Option.map_eq_some'.mp hq with ⟨e, hfind, _⟩
    have he := List.mem_of_find?_eq_some hfind
    have hm := List.find?_some hfind
    rcases buildGraph_edges_mem e he with ⟨pu, pv, h1, h2, h3⟩
    have hno : nofly.intersectsB (pu, pv) = false := by
      rcases h3 with h3 | h3
      · exact builderEdgeWeight_isSome_no_nofly h3
      · have h4 := builderEdgeWeight_isSome_no_nofly h3
        have h5 : nofly.intersectsB (pu, pv) = nofly.intersectsB (pv, pu) :=
          hsymn (pv, pu)
        rw [h4] at h5
        exact h5
    rcases edgeMatches_iff.mp hm with ⟨hm1, hm2⟩ | ⟨hm1, hm2⟩
    · exact ⟨pu, pv, by rw [← hm1]; exact h1, by rw [← hm2]; exact h2, hno⟩
    · refine ⟨pv, pu, by rw [← hm2]; exact h2, by rw [← hm1]; exact h1, ?_⟩
      have h5 : nofly.intersectsB (pv, pu) = nofly.intersectsB (pu, pv) :=
        hsymn (pu, pv)
      rw [hno] at h5
      exact h5

/-- C3 witness at concrete inputs. -/
theorem c3_simple_builder_edges_witness :
    (simpleCreateGraph ctxUnit fac2 zoneNone zoneNone 2).edgeWeight 0 1 =
      some (ctxUnit.dist (0, 0) (1, 0) *
        (if zoneNone.intersectsB ((0, 0), (1, 0)) then 10 else 1)) :=
  (c3_simple_builder_edges ctxUnit fac2 zoneNone zoneNone 2 (by decide)
    (fun _ _ => rfl) (fun _ => rfl) (fun _ => rfl)
    (fun _ _ h => absurd h Bool.false_ne_true)).1 0 1 (0, 0) (1, 0)
    (by simp [fac2]) (by simp [fac2]) (by decide) (by norm_num [ctxUnit]) rfl

/-- C4: a facility strictly inside a no-fly zone never appears as a node
of the built graph, under either builder variant, given the geometric
containment-implies-intersection property (a line ending strictly inside a
region intersects it), which also rules out implicit creation through
edges from other facilities. -/
theorem c4_nofly_facility_never_node (ctx : GeoCtx) (fac : List (Nat × Q2))
    (roads buildings openSpace nofly avoid : ZoneColl) (rng : ℚ)
    (b : Nat) (pb : Q2)
    (hnd : (fac.map Prod.fst).Nodup) (hb : (b, pb) ∈ fac)
    (hcont : nofly.containsB pb = true)
    (hci : ∀ p q : Q2, nofly.containsB q = true → nofly.intersectsB (p, q) = true) :
    (simpleCreateGraph ctx fac nofly avoid rng).hasNode b = false ∧
    (advCreateGraph ctx fac roads buildings openSpace nofly avoid
      rng).hasNode b = false := by
  constructor
  · rw [simpleCreateGraph_eq]
    refine buildGraph_no_node hnd hb hcont ?_
    intro p
    simp [builderEdgeWeight, hci p pb hcont]
  · rw [advCreateGraph_eq]
    refine buildGraph_no_node hnd hb hcont ?_
    intro p
    simp [advEdgeWeight, hci p pb hcont]

/-- C4 witness at concrete inputs. -/
theorem c4_nofly_facility_never_node_witness :
    (simpleCreateGraph ctxUnit fac2 zoneAll zoneNone 2).hasNode 1 = false ∧
    (advCreateGraph ctxUnit fac2 zoneNone zoneNone zoneNone zoneAll zoneNone
      2).hasNode 1 = false :=
  c4_nofly_facility_never_node ctxUnit fac2 zoneNone zoneNone zoneNone zoneAll
    zoneNone 2 1 (1, 0) (by decide) (by simp [fac2]) rfl (fun _ _ _ => rfl)

/-- C2 counterexample: the path-finding phase of
`generate_advanced_route.py` runs the shortest-path lookup on the graph as
given — here a graph whose node 2 lacks its `pos` attribute while being
referenced by an edge — so the offending node is not excluded before path
computation. -/
theorem c2_counterexample :
    (runPathPhase spConst gBad 1 1).path = some [1, 1] ∧
    (runPathPhase spConst gBad 1 1).dijkstraInput = gBad ∧
    gBad.hasNode 2 = true ∧
    (∃ nd ∈ gBad.nodes, nd.1 = 2 ∧ nd.2.pos = none) ∧
    (∃ e ∈ gBad.edges, e.1 = 2 ∨ e.2.1 = 2) := by
  refine ⟨rfl, rfl, rfl, ⟨(2, ⟨none, none⟩), by simp [gBad], rfl, rfl⟩,
    ⟨(1, 2, 5), by simp [gBad], Or.inr rfl⟩⟩

/-- C2 (amended): the shortest-path lookup runs on the unfiltered graph;
nodes lacking a `pos` attribute are detected and removed only afterwards —
when a path was found — so that the graph from which the route is saved
contains no node lacking a position, and every detected offending node is
excluded from it. -/
theorem c2_amended (sp : Graph → Nat → Nat → Option (List Nat)) (G : Graph)
    (s t : Nat) (hnd : G.nodeIds.Nodup) :
    ((runPathPhase sp G s t).dijkstraInput = G) ∧
    (∀ p, sp G s t = some p →
      (∀ nd ∈ (runPathPhase sp G s t).savedGraph.nodes, nd.2.pos.isSome = true) ∧
      (∀ n ∈ (runPathPhase sp G s t).missingPos,
        (runPathPhase sp G s t).savedGraph.hasNode n = false)) := by
  constructor
  · unfold runPathPhase
    cases hsp : sp G s t <;> rfl
  · intro p hp
    unfold runPathPhase
    rw [hp]
    constructor
    · intro nd hnd2
      have h2 := List.mem_filter.mp hnd2
      cases hpos : nd.2.pos with
      | some p2 => rfl
      | none =>
        exfalso
        have hlk : G.posDict.lookup nd.1 = none := by
          have h3 : G.posDict.lookup nd.1 = nd.2.pos :=
            lookup_posDict_of_nodup G.nodes hnd nd h2.1
          rw [hpos] at h3
          exact h3
        have hmem : nd.1 ∈ (G.nodes.filter
            (fun nd => ((G.posDict.lookup nd.1)).isNone)).map (fun nd => nd.1) :=
          List.mem_map_of_mem _
            (List.mem_filter.mpr ⟨h2.1, by rw [hlk]; rfl⟩)
        have hcon := h2.2
        rw [Bool.not_eq_true'] at hcon
        rw [Bool.eq_false_iff] at hcon
        exact hcon (List.elem_iff.mpr hmem)
    · intro n hn
      cases hx : (G.removeNodes
          ((G.nodes.filter (fun nd => ((G.posDict.lookup nd.1)).isNone)).map
            (fun nd => nd.1))).hasNode n with
      | false => rfl
      | true =>
        exfalso
        rcases List.any_eq_true.mp hx with ⟨nd, hndm, hq⟩
        have h2 := List.mem_filter.mp hndm
        have hq2 : nd.1 = n := by simpa using hq
        have hcon := h2.2
        rw [Bool.not_eq_true'] at hcon
        rw [Bool.eq_false_iff] at hcon
        exact hcon (List.elem_iff.mpr (hq2 ▸ hn))

/-- C2 amended witness at concrete inputs. -/
theorem c2_amended_witness :
    ((runPathPhase spConst gBad 1 1).dijkstraInput = gBad) ∧
    (∀ nd ∈ (runPathPhase spConst gBad 1 1).savedGraph.nodes,
      nd.2.pos.isSome = true) :=
  ⟨(c2_amended spConst gBad 1 1 (by decide)).1,
   ((c2_amended spConst gBad 1 1 (by decide)).2 [1, 1] rfl).1⟩

/-- Every existing node id is strictly below the id chosen for an inserted
node. -/
theorem lt_newNodeIdx {G : Graph} {n : Nat} (h : n ∈ G.nodeIds) :
    n < newNodeIdx G := by
  unfold newNodeIdx
  rcases List.mem_map.mp h with ⟨nd, hnd, rfl⟩
  split <;> rename_i hE
  · rw [List.isEmpty_iff.mp hE] at hnd
    cases hnd
  · exact Nat.lt_succ_of_le (le_maxNode hnd)

/-- The id list stays duplicate-free when the fresh inserted id is
appended. -/
theorem nodup_append_newNodeIdx {G : Graph} (hnd : G.nodeIds.Nodup) :
    (G.nodeIds ++ [newNodeIdx G]).Nodup := by
  rw [List.nodup_append]
  refine ⟨hnd, List.nodup_singleton _, ?_⟩
  intro x hx hx2
  have hx3 : x = newNodeIdx G := by simpa using hx2
  rw [hx3] at hx
  exact lt_irrefl _ (lt_newNodeIdx hx)

/-- Membership in the `pos` dictionary comes from a node storing that
position. -/
theorem mem_posDict {G : Graph} {e : Nat × Q2} (he : e ∈ G.posDict) :
    ∃ nd ∈ G.nodes, nd.1 = e.1 ∧ nd.2.pos = some e.2 := by
  unfold Graph.posDict at he
  rcases List.mem_filterMap.mp he with ⟨nd, hndm, hnd2⟩
  rcases Option.map_eq_some'.mp hnd2 with ⟨p, hp, hpe⟩
  exact ⟨nd, hndm, by rw [← hpe], by rw [hp, ← hpe]⟩

/-- Dictionary assignment of a value every matching entry already holds is
the identity. -/
theorem dictSet_eq_self {m : List (Nat × Q2)} {k : Nat} {v : Q2}
    (hall : ∀ e ∈ m, e.1 = k → e.2 = v)
    (hk : m.any (fun e => e.1 == k) = true) :
    dictSet m k v = m := by
  unfold dictSet
  rw [if_pos hk]
  apply map_eq_self_of
  intro e he
  by_cases h : (e.1 == k) = true
  · rw [if_pos h, ← hall e he (by simpa using h)]
  · rw [if_neg h]

/-- The `get_node_attributes`/`set_node_attributes` round-trip performed by
both `add_node_to_graph` variants after `add_node` is the identity on the
graph. -/
theorem prelude_eq {G : Graph} {loc : Q2} {nm : String} (hnd : G.nodeIds.Nodup) :
    (G.addNodePosName (newNodeIdx G) loc nm).setPosAll
      (dictSet (G.addNodePosName (newNodeIdx G) loc nm).posDict (newNodeIdx G) loc) =
    G.addNodePosName (newNodeIdx G) loc nm := by
  have hn1 : (G.addNodePosName (newNodeIdx G) loc nm).nodes =
      G.nodes ++ [(newNodeIdx G, ⟨some loc, some nm⟩)] :=
    nodes_addNodePosName_fresh (hasNode_newNodeIdx G)
  have hids : (G.addNodePosName (newNodeIdx G) loc nm).nodeIds =
      G.nodeIds ++ [newNodeIdx G] := by
    unfold Graph.nodeIds
    rw [hn1, List.map_append]
    rfl
  have hnd1 : (G.addNodePosName (newNodeIdx G) loc nm).nodeIds.Nodup := by
    rw [hids]
    exact nodup_append_newNodeIdx hnd
  have hdict : dictSet (G.addNodePosName (newNodeIdx G) loc nm).posDict
      (newNodeIdx G) loc = (G.addNodePosName (newNodeIdx G) loc nm).posDict := by
    apply dictSet_eq_self
    · intro e he hek
      rcases mem_posDict he with ⟨nd, hndm, h1, h2⟩
      rw [hn1] at hndm
      rcases List.mem_append.mp hndm with h0 | h0
      · exfalso
        have : nd.1 ∈ G.nodeIds := List.mem_map_of_mem _ h0
        rw [h1, hek] at this
        exact lt_irrefl _ (lt_newNodeIdx this)
      · have h3 : nd = (newNodeIdx G, (⟨some loc, some nm⟩ : NodeData)) := by
          simpa using h0
        rw [h3] at h2
        simpa using h2.symm
    · apply List.any_eq_true.mpr
      refine ⟨(newNodeIdx G, loc), ?_, by simp⟩
      unfold Graph.posDict
      rw [hn1]
      apply List.mem_filterMap.mpr
      exact ⟨(newNodeIdx G, ⟨some loc, some nm⟩), by simp, rfl⟩
  rw [hdict]
  apply setPosAll_eq_self
  intro nd hndm p hlkp
  have h3 : (G.addNodePosName (newNodeIdx G) loc nm).posDict.lookup nd.1 =
      nd.2.pos :=
    lookup_posDict_of_nodup _ hnd1 nd hndm
  rw [hlkp] at h3
  exact h3.symm

/-- `newNodeIdx` after appending the freshly numbered node increments by
one. -/
theorem newNodeIdx_append {G H : Graph} {d : NodeData}
    (h : H.nodes = G.nodes ++ [(newNodeIdx G, d)]) :
    newNodeIdx H = newNodeIdx G + 1 := by
  have hmx : H.maxNode = max G.maxNode (newNodeIdx G) := by
    unfold Graph.maxNode
    rw [h, List.foldl_append]
    rfl
  have hne : H.nodes.isEmpty = false := by
    rw [h]
    cases G.nodes <;> rfl
  by_cases hE : G.nodes.isEmpty = true
  · have hidx : newNodeIdx G = 0 := by unfold newNodeIdx; rw [if_pos hE]
    have hG0 : G.nodes = [] := List.isEmpty_iff.mp hE
    have hmax0 : G.maxNode = 0 := by unfold Graph.maxNode; rw [hG0]; rfl
    unfold newNodeIdx
    rw [hne, hmx, hmax0, hidx]
    simp [hE]
  · have hidx : newNodeIdx G = G.maxNode + 1 := by unfold newNodeIdx; rw [if_neg hE]
    unfold newNodeIdx
    rw [hne, hmx, hidx, if_neg hE]
    simp

/-- Frame specification of the inserter body after its no-fly check: the
node list gains exactly the inserted node, pre-existing edges survive with
their weights, and every other edge runs from the inserted node to a
facility id. -/
theorem insertLoop_after_prelude (F1 : Q2 → Option ℚ) (G : Graph)
    (loc : Q2) (nm : String) (fac : List (Nat × Q2))
    (hnd : G.nodeIds.Nodup)
    (hwf : ∀ e ∈ G.edges, e.1 ∈ G.nodeIds ∧ e.2.1 ∈ G.nodeIds)
    (hfac : ∀ r ∈ fac, G.hasNode r.1 = true) :
    (insertLoop F1 (newNodeIdx G) fac
        ((G.addNodePosName (newNodeIdx G) loc nm).setPosAll
          (dictSet (G.addNodePosName (newNodeIdx G) loc nm).posDict
            (newNodeIdx G) loc))).nodes =
      G.nodes ++ [(newNodeIdx G, ⟨some loc, some nm⟩)] ∧
    (∀ e ∈ G.edges, e ∈ (insertLoop F1 (newNodeIdx G) fac
        ((G.addNodePosName (newNodeIdx G) loc nm).setPosAll
          (dictSet (G.addNodePosName (newNodeIdx G) loc nm).posDict
            (newNodeIdx G) loc))).edges) ∧
    (∀ e ∈ (insertLoop F1 (newNodeIdx G) fac
        ((G.addNodePosName (newNodeIdx G) loc nm).setPosAll
          (dictSet (G.addNodePosName (newNodeIdx G) loc nm).posDict
            (newNodeIdx G) loc))).edges,
      e ∈ G.edges ∨ ∃ r ∈ fac, e.1 = newNodeIdx G ∧ e.2.1 = r.1) ∧
    (∀ a b : Nat, a ≠ newNodeIdx G → b ≠ newNodeIdx G →
      (insertLoop F1 (newNodeIdx G) fac
        ((G.addNodePosName (newNodeIdx G) loc nm).setPosAll
          (dictSet (G.addNodePosName (newNodeIdx G) loc nm).posDict
            (newNodeIdx G) loc))).edgeWeight a b = G.edgeWeight a b) := by
  rw [prelude_eq hnd]
  have hn1 : (G.addNodePosName (newNodeIdx G) loc nm).nodes =
      G.nodes ++ [(newNodeIdx G, ⟨some loc, some nm⟩)] :=
    nodes_addNodePosName_fresh (hasNode_newNodeIdx G)
  have he1 : (G.addNodePosName (newNodeIdx G) loc nm).edges = G.edges :=
    edges_addNodePosName G (newNodeIdx G) loc nm
  have hfresh : ∀ e ∈ (G.addNodePosName (newNodeIdx G) loc nm).edges,
      e.1 ≠ newNodeIdx G ∧ e.2.1 ≠ newNodeIdx G := by
    intro e he
    rw [he1] at he
    have h1 := (hwf e he).1
    have h2 := (hwf e he).2
    exact ⟨(lt_newNodeIdx h1).ne, (lt_newNodeIdx h2).ne⟩
  have hidx : (G.addNodePosName (newNodeIdx G) loc nm).hasNode (newNodeIdx G) = true := by
    apply hasNode_iff_mem.mpr
    unfold Graph.nodeIds
    rw [hn1, List.map_append]
    exact List.mem_append_right _ (by simp)
  have hfac1 : ∀ r ∈ fac, (G.addNodePosName (newNodeIdx G) loc nm).hasNode r.1 = true := by
    intro r hr
    apply hasNode_iff_mem.mpr
    unfold Graph.nodeIds
    rw [hn1, List.map_append]
    exact List.mem_append_left _ (hasNode_iff_mem.mp (hfac r hr))
  refine ⟨?_, ?_, ?_, ?_⟩
  · rw [insertLoop_nodes hidx hfac1, hn1]
  · intro e he
    exact insertLoop_edges_preserved hfresh e (by rw [he1]; exact he)
  · intro e he
    rcases insertLoop_edges_mem hfresh e he with h0 | h0
    · rw [he1] at h0
      exact Or.inl h0
    · exact Or.inr h0
  · intro a b ha hb
    rw [insertLoop_edgeWeight_other ha hb]
    exact edgeWeight_eq_of_edges he1 a b

/-- C10 counterexample: on a graph that lacks a facility's index, a
successful NodeInserter call creates a second new node (the facility id,
here 7) besides the inserted node (id 1), refuting "exactly one new
node". -/
theorem c10_counterexample :
    (simpleAddNode ctxUnit g0 (0, 1) "Start" facFar zoneNone zoneNone 2).1 =
      some 1 ∧
    (simpleAddNode ctxUnit g0 (0, 1) "Start" facFar zoneNone zoneNone
      2).2.hasNode 7 = true ∧
    g0.hasNode 7 = false ∧ (7 : Nat) ≠ 1 := by
  decide

/-- C10 (amended): on a graph containing every facility index, a
successful NodeInserter call (either variant) returns the fresh id
`max + 1` (0 on an empty graph), appends exactly that one node — so every
pre-existing node and its `pos` attribute survive, and the node is added
even when zero edges qualify — keeps every pre-existing edge with its
weight, and adds only edges from the new node to facility ids. -/
theorem c10_amended (ctx : GeoCtx) (G : Graph) (loc : Q2) (nm : String)
    (fac : List (Nat × Q2)) (roads buildings openSpace nofly avoid : ZoneColl)
    (rng : ℚ)
    (hnd : G.nodeIds.Nodup)
    (hwf : ∀ e ∈ G.edges, e.1 ∈ G.nodeIds ∧ e.2.1 ∈ G.nodeIds)
    (hfac : ∀ r ∈ fac, G.hasNode r.1 = true)
    (hc : nofly.containsB loc = false) :
    ((simpleAddNode ctx G loc nm fac nofly avoid rng).1 = some (newNodeIdx G) ∧
      (simpleAddNode ctx G loc nm fac nofly avoid rng).2.nodes =
        G.nodes ++ [(newNodeIdx G, ⟨some loc, some nm⟩)] ∧
      (∀ e ∈ G.edges,
        e ∈ (simpleAddNode ctx G loc nm fac nofly avoid rng).2.edges) ∧
      (∀ e ∈ (simpleAddNode ctx G loc nm fac nofly avoid rng).2.edges,
        e ∈ G.edges ∨ ∃ r ∈ fac, e.1 = newNodeIdx G ∧ e.2.1 = r.1) ∧
      (∀ a b : Nat, a ≠ newNodeIdx G → b ≠ newNodeIdx G →
        (simpleAddNode ctx G loc nm fac nofly avoid rng).2.edgeWeight a b =
          G.edgeWeight a b)) ∧
    ((advAddNode ctx G loc nm fac roads buildings openSpace nofly avoid
        rng).1 = some (newNodeIdx G) ∧
      (advAddNode ctx G loc nm fac roads buildings openSpace nofly avoid
        rng).2.nodes = G.nodes ++ [(newNodeIdx G, ⟨some loc, some nm⟩)] ∧
      (∀ e ∈ G.edges, e ∈ (advAddNode ctx G loc nm fac roads buildings
        openSpace nofly avoid rng).2.edges) ∧
      (∀ e ∈ (advAddNode ctx G loc nm fac roads buildings openSpace nofly
        avoid rng).2.edges,
        e ∈ G.edges ∨ ∃ r ∈ fac, e.1 = newNodeIdx G ∧ e.2.1 = r.1) ∧
      (∀ a b : Nat, a ≠ newNodeIdx G → b ≠ newNodeIdx G →
        (advAddNode ctx G loc nm fac roads buildings openSpace nofly avoid
          rng).2.edgeWeight a b = G.edgeWeight a b)) := by
  have hs := simpleAddNode_not_contained ctx G loc nm fac nofly avoid rng hc
  have ha := advAddNode_not_contained ctx G loc nm fac roads buildings
    openSpace nofly avoid rng hc
  have hm1 := insertLoop_after_prelude
    (inserterEdgeWeight ctx nofly avoid rng loc) G loc nm fac hnd hwf hfac
  have hm2 := insertLoop_after_prelude
    (advEdgeWeight ctx roads buildings openSpace nofly avoid rng loc) G loc nm
    fac hnd hwf hfac
  rw [hs, ha]
  exact ⟨⟨rfl, hm1.1, hm1.2.1, hm1.2.2.1, hm1.2.2.2⟩,
    ⟨rfl, hm2.1, hm2.2.1, hm2.2.2.1, hm2.2.2.2⟩⟩

/-- C10 amended witness at concrete inputs. -/
theorem c10_amended_witness :
    (simpleAddNode ctxUnit g0 (0, 1) "Start" facW zoneNone zoneNone 2).1 =
      some (newNodeIdx g0) ∧
    (simpleAddNode ctxUnit g0 (0, 1) "Start" facW zoneNone zoneNone 2).2.nodes =
      g0.nodes ++ [(newNodeIdx g0, ⟨some (0, 1), some "Start"⟩)] :=
  ⟨(c10_amended ctxUnit g0 (0, 1) "Start" facW zoneNone zoneNone zoneNone
      zoneNone zoneNone 2 (by decide) (by decide) (by decide) rfl).1.1,
   (c10_amended ctxUnit g0 (0, 1) "Start" facW zoneNone zoneNone zoneNone
      zoneNone zoneNone 2 (by decide) (by decide) (by decide) rfl).1.2.1⟩

/-- Two successive inserter bodies: the second id is the first plus one, no
edge ever joins the two inserted ids, and every new edge runs from an
inserted id to a facility id distinct from both inserted ids. -/
theorem twoInsertLoop_spec (F1 F2 : Q2 → Option ℚ) (G G1 G2 : Graph)
    (loc1 loc2 : Q2) (nm1 nm2 : String) (fac : List (Nat × Q2))
    (hnd : G.nodeIds.Nodup)
    (hwf : ∀ e ∈ G.edges, e.1 ∈ G.nodeIds ∧ e.2.1 ∈ G.nodeIds)
    (hfacG : ∀ r ∈ fac, G.hasNode r.1 = true)
    (hG1 : G1 = insertLoop F1 (newNodeIdx G) fac
      ((G.addNodePosName (newNodeIdx G) loc1 nm1).setPosAll
        (dictSet (G.addNodePosName (newNodeIdx G) loc1 nm1).posDict
          (newNodeIdx G) loc1)))
    (hG2 : G2 = insertLoop F2 (newNodeIdx G1) fac
      ((G1.addNodePosName (newNodeIdx G1) loc2 nm2).setPosAll
        (dictSet (G1.addNodePosName (newNodeIdx G1) loc2 nm2).posDict
          (newNodeIdx G1) loc2))) :
    newNodeIdx G1 = newNodeIdx G + 1 ∧
    G2.edgeWeight (newNodeIdx G) (newNodeIdx G + 1) = none ∧
    (∀ e ∈ G2.edges, e ∈ G.edges ∨
      (e.1 = newNodeIdx G ∧ e.2.1 ∈ fac.map Prod.fst ∧
        e.2.1 ≠ newNodeIdx G ∧ e.2.1 ≠ newNodeIdx G + 1) ∨
      (e.1 = newNodeIdx G + 1 ∧ e.2.1 ∈ fac.map Prod.fst ∧
        e.2.1 ≠ newNodeIdx G ∧ e.2.1 ≠ newNodeIdx G + 1)) := by
  have hm1 := insertLoop_after_prelude F1 G loc1 nm1 fac hnd hwf hfacG
  rw [← hG1] at hm1
  have hn1 : G1.nodes = G.nodes ++ [(newNodeIdx G, ⟨some loc1, some nm1⟩)] :=
    hm1.1
  have hids1 : G1.nodeIds = G.nodeIds ++ [newNodeIdx G] := by
    unfold Graph.nodeIds
    rw [hn1, List.map_append]
    rfl
  have hnd1 : G1.nodeIds.Nodup := by
    rw [hids1]
    exact nodup_append_newNodeIdx hnd
  have hfr : ∀ n : Nat, n ∈ fac.map Prod.fst → n < newNodeIdx G := by
    intro n hnf
    rcases List.mem_map.mp hnf with ⟨r, hr, rfl⟩
    exact lt_newNodeIdx (hasNode_iff_mem.mp (hfacG r hr))
  have hchar1 : ∀ e ∈ G1.edges,
      e ∈ G.edges ∨ ∃ r ∈ fac, e.1 = newNodeIdx G ∧ e.2.1 = r.1 := hm1.2.2.1
  have hwf1 : ∀ e ∈ G1.edges, e.1 ∈ G1.nodeIds ∧ e.2.1 ∈ G1.nodeIds := by
    intro e he
    rcases hchar1 e he with h0 | ⟨r, hr, h1, h2⟩
    · have h3 := hwf e h0
      rw [hids1]
      exact ⟨List.mem_append_left _ h3.1, List.mem_append_left _ h3.2⟩
    · rw [hids1, h1, h2]
      exact ⟨List.mem_append_right _ (by simp),
        List.mem_append_left _ (hasNode_iff_mem.mp (hfacG r hr))⟩
  have hfac1 : ∀ r ∈ fac, G1.hasNode r.1 = true := by
    intro r hr
    apply hasNode_iff_mem.mpr
    rw [hids1]
    exact List.mem_append_left _ (hasNode_iff_mem.mp (hfacG r hr))
  have hm2 := insertLoop_after_prelude F2 G1 loc2 nm2 fac hnd1 hwf1 hfac1
  rw [← hG2] at hm2
  have hi2 : newNodeIdx G1 = newNodeIdx G + 1 := newNodeIdx_append hn1
  have hchar2 : ∀ e ∈ G2.edges,
      e ∈ G1.edges ∨ ∃ r ∈ fac, e.1 = newNodeIdx G1 ∧ e.2.1 = r.1 := hm2.2.2.1
  have hcomb : ∀ e ∈ G2.edges, e ∈ G.edges ∨
      (e.1 = newNodeIdx G ∧ e.2.1 ∈ fac.map Prod.fst ∧
        e.2.1 ≠ newNodeIdx G ∧ e.2.1 ≠ newNodeIdx G + 1) ∨
      (e.1 = newNodeIdx G + 1 ∧ e.2.1 ∈ fac.map Prod.fst ∧
        e.2.1 ≠ newNodeIdx G ∧ e.2.1 ≠ newNodeIdx G + 1) := by
    intro e he
    rcases hchar2 e he with h0 | ⟨r, hr, h1, h2⟩
    · rcases hchar1 e h0 with h3 | ⟨r, hr, h1, h2⟩
      · exact Or.inl h3
      · right; left
        have hlt : r.1 < newNodeIdx G := hfr r.1 (List.mem_map_of_mem _ hr)
        refine ⟨h1, by rw [h2]; exact List.mem_map_of_mem _ hr, ?_, ?_⟩ <;>
          rw [h2] <;> omega
    · right; right
      have hlt : r.1 < newNodeIdx G := hfr r.1 (List.mem_map_of_mem _ hr)
      rw [hi2] at h1
      refine ⟨h1, by rw [h2]; exact List.mem_map_of_mem _ hr, ?_, ?_⟩ <;>
        rw [h2] <;> omega
  refine ⟨hi2, ?_, hcomb⟩
  apply edgeWeight_eq_none_iff.mpr
  intro e he
  rcases hcomb e he with h0 | ⟨h1, _, h3, h4⟩ | ⟨h1, _, h3, h4⟩
  · have h5 := hwf e h0
    have l1 := lt_newNodeIdx h5.1
    have l2 := lt_newNodeIdx h5.2
    rw [← Bool.not_eq_true]
    intro hm
    rcases edgeMatches_iff.mp hm with ⟨g1, g2⟩ | ⟨g1, g2⟩ <;> omega
  · rw [← Bool.not_eq_true]
    intro hm
    rcases edgeMatches_iff.mp hm with ⟨g1, g2⟩ | ⟨g1, g2⟩ <;> omega
  · rw [← Bool.not_eq_true]
    intro hm
    rcases edgeMatches_iff.mp hm with ⟨g1, g2⟩ | ⟨g1, g2⟩ <;> omega

/-- C8 counterexample: when a facility index collides with the id the
first inserted ad-hoc node received (graph `g0` has max id 0, so "Start"
gets id 1, the index of the only facility), the second call creates a
direct edge between the two inserted ad-hoc nodes 2 and 1 — node 1 being
the inserted "Start" node, as its `name` attribute shows. -/
theorem c8_counterexample :
    (simpleAddNode ctxUnit g0 (2, 2) "Start" facC8 zoneNone zoneNone 3).1 =
      some 1 ∧
    (simpleAddNode ctxUnit
      (simpleAddNode ctxUnit g0 (2, 2) "Start" facC8 zoneNone zoneNone 3).2
      (3, 3) "End" facC8 zoneNone zoneNone 3).1 = some 2 ∧
    (∃ nd ∈ (simpleAddNode ctxUnit
        (simpleAddNode ctxUnit g0 (2, 2) "Start" facC8 zoneNone zoneNone 3).2
        (3, 3) "End" facC8 zoneNone zoneNone 3).2.nodes,
      nd.1 = 1 ∧ nd.2.name = some "Start") ∧
    (simpleAddNode ctxUnit
      (simpleAddNode ctxUnit g0 (2, 2) "Start" facC8 zoneNone zoneNone 3).2
      (3, 3) "End" facC8 zoneNone zoneNone 3).2.edgeWeight 2 1 = some 1 := by
  decide

/-- C8 (amended): on a graph containing every facility index (so facility
indices cannot collide with inserted ids), two successive simple-variant
NodeInserter calls give the inserted nodes the fresh ids `max+1` and
`max+2`; every edge they add runs from an inserted id to a facility id
distinct from both inserted ids — never to the other inserted ad-hoc
node — and no direct edge between the two inserted nodes exists. -/
theorem c8_amended (ctx : GeoCtx) (G : Graph) (loc1 loc2 : Q2)
    (nm1 nm2 : String) (fac : List (Nat × Q2))
    (roads buildings openSpace nofly avoid : ZoneColl) (rng : ℚ)
    (hnd : G.nodeIds.Nodup)
    (hwf : ∀ e ∈ G.edges, e.1 ∈ G.nodeIds ∧ e.2.1 ∈ G.nodeIds)
    (hfacG : ∀ r ∈ fac, G.hasNode r.1 = true)
    (hc1 : nofly.containsB loc1 = false)
    (hc2 : nofly.containsB loc2 = false) :
    ((simpleAddNode ctx G loc1 nm1 fac nofly avoid rng).1 =
      some (newNodeIdx G) ∧
    (simpleAddNode ctx (simpleAddNode ctx G loc1 nm1 fac nofly avoid rng).2
      loc2 nm2 fac nofly avoid rng).1 = some (newNodeIdx G + 1) ∧
    (simpleAddNode ctx (simpleAddNode ctx G loc1 nm1 fac nofly avoid rng).2
      loc2 nm2 fac nofly avoid rng).2.edgeWeight (newNodeIdx G)
        (newNodeIdx G + 1) = none ∧
    (∀ e ∈ (simpleAddNode ctx
        (simpleAddNode ctx G loc1 nm1 fac nofly avoid rng).2
        loc2 nm2 fac nofly avoid rng).2.edges,
      e ∈ G.edges ∨
      (e.1 = newNodeIdx G ∧ e.2.1 ∈ fac.map Prod.fst ∧
        e.2.1 ≠ newNodeIdx G ∧ e.2.1 ≠ newNodeIdx G + 1) ∨
      (e.1 = newNodeIdx G + 1 ∧ e.2.1 ∈ fac.map Prod.fst ∧
        e.2.1 ≠ newNodeIdx G ∧ e.2.1 ≠ newNodeIdx G + 1))) ∧
    ((advAddNode ctx G loc1 nm1 fac roads buildings openSpace nofly avoid
      rng).1 = some (newNodeIdx G) ∧
    (advAddNode ctx (advAddNode ctx G loc1 nm1 fac roads buildings openSpace
      nofly avoid rng).2 loc2 nm2 fac roads buildings openSpace nofly avoid
      rng).1 = some (newNodeIdx G + 1) ∧
    (advAddNode ctx (advAddNode ctx G loc1 nm1 fac roads buildings openSpace
      nofly avoid rng).2 loc2 nm2 fac roads buildings openSpace nofly avoid
      rng).2.edgeWeight (newNodeIdx G) (newNodeIdx G + 1) = none ∧
    (∀ e ∈ (advAddNode ctx (advAddNode ctx G loc1 nm1 fac roads buildings
        openSpace nofly avoid rng).2 loc2 nm2 fac roads buildings openSpace
        nofly avoid rng).2.edges,
      e ∈ G.edges ∨
      (e.1 = newNodeIdx G ∧ e.2.1 ∈ fac.map Prod.fst ∧
        e.2.1 ≠ newNodeIdx G ∧ e.2.1 ≠ newNodeIdx G + 1) ∨
      (e.1 = newNodeIdx G + 1 ∧ e.2.1 ∈ fac.map Prod.fst ∧
        e.2.1 ≠ newNodeIdx G ∧ e.2.1 ≠ newNodeIdx G + 1))) := by
  constructor
  · have hs1 := simpleAddNode_not_contained ctx G loc1 nm1 fac nofly avoid
      rng hc1
    have hs2 := simpleAddNode_not_contained ctx
      (simpleAddNode ctx G loc1 nm1 fac nofly avoid rng).2 loc2 nm2 fac nofly
      avoid rng hc2
    have hspec := twoInsertLoop_spec
      (inserterEdgeWeight ctx nofly avoid rng loc1)
      (inserterEdgeWeight ctx nofly avoid rng loc2) G
      (simpleAddNode ctx G loc1 nm1 fac nofly avoid rng).2
      (simpleAddNode ctx
        (simpleAddNode ctx G loc1 nm1 fac nofly avoid rng).2
        loc2 nm2 fac nofly avoid rng).2
      loc1 loc2 nm1 nm2 fac
      hnd hwf hfacG (by rw [hs1]) (by rw [hs2])
    refine ⟨by rw [hs1], ?_, hspec.2.1, hspec.2.2⟩
    rw [hs2]
    rw [hspec.1]
  · have hs1 := advAddNode_not_contained ctx G loc1 nm1 fac roads buildings
      openSpace nofly avoid rng hc1
    have hs2 := advAddNode_not_contained ctx
      (advAddNode ctx G loc1 nm1 fac roads buildings openSpace nofly avoid
        rng).2 loc2 nm2 fac roads buildings openSpace nofly avoid rng hc2
    have hspec := twoInsertLoop_spec
      (advEdgeWeight ctx roads buildings openSpace nofly avoid rng loc1)
      (advEdgeWeight ctx roads buildings openSpace nofly avoid rng loc2)
      G
      (advAddNode ctx G loc1 nm1 fac roads buildings openSpace nofly avoid
        rng).2
      (advAddNode ctx (advAddNode ctx G loc1 nm1 fac roads buildings
        openSpace nofly avoid rng).2 loc2 nm2 fac roads buildings openSpace
        nofly avoid rng).2
      loc1 loc2 nm1 nm2 fac
      hnd hwf hfacG (by rw [hs1]) (by rw [hs2])
    refine ⟨by rw [hs1], ?_, hspec.2.1, hspec.2.2⟩
    rw [hs2]
    rw [hspec.1]

/-- C8 amended witness at concrete inputs. -/
theorem c8_amended_witness :
    (simpleAddNode ctxUnit g0 (0, 1) "Start" facW zoneNone zoneNone 2).1 =
      some (newNodeIdx g0) ∧
    (simpleAddNode ctxUnit
      (simpleAddNode ctxUnit g0 (0, 1) "Start" facW zoneNone zoneNone 2).2
      (1, 1) "End" facW zoneNone zoneNone 2).2.edgeWeight (newNodeIdx g0)
        (newNodeIdx g0 + 1) = none :=
  ⟨(c8_amended ctxUnit g0 (0, 1) (1, 1) "Start" "End" facW zoneNone zoneNone
      zoneNone zoneNone zoneNone 2
      (by decide) (by decide) (by decide) rfl rfl).1.1,
   (c8_amended ctxUnit g0 (0, 1) (1, 1) "Start" "End" facW zoneNone zoneNone
      zoneNone zoneNone zoneNone 2
      (by decide) (by decide) (by decide) rfl rfl).1.2.2.1⟩
